import Mathlib

/-!
Verification of the Glog file-format decoder (Rust sources under `src/reader/`:
`mod.rs`, `v3.rs`, `v4.rs`, with the error types of `error.rs`).

The Rust code is shallowly embedded:

* Byte streams (`std::io::Read`) become `ByteStream`: the remaining bytes plus a
  schedule bounding how many bytes each raw `read` call may return (the `Read`
  trait allows any positive short read, and a zero return signals end of data).
* Buffers (`&mut [u8]`) become `List Nat`; in-place writes return the new list.
* Fallible operations return `Except GlogError`, mirroring `Result<_, GlogError>`.
* The flate2 `Decompress` context is abstracted by a parameter
  `inflate : List (List Nat) → Nat → Option (List Nat)` giving the bytes the
  stateful raw-deflate decoder emits for the latest input chunk, as a function
  of the whole history of chunks fed and of the free capacity of the output
  buffer.  The wrapper `StatefulInflater` records exactly the history of inputs
  fed, as the Rust wrapper threads them to the single `Decompress` value.  The
  model truncates the emitted bytes to the output capacity, which encodes the
  slice-safety fact that `Decompress::decompress` can never write past the end
  of the `&mut [u8]` it is given.
* ECDH derivation and AES-CFB decryption are abstracted by function parameters
  (`derive`, `cfb`); the per-reader shared-key cache is an association list.
-/

namespace Glog

/-- Error type, following `GlogError` in `error.rs` (only the payloads the
reader logic inspects are kept; message strings are dropped). -/
inductive GlogError where
  | unexpectedEof (expected available : Nat)
  | magicMismatch
  | syncMarkerMismatch
  | illegalCompressMode (n : Nat)
  | illegalEncryptMode (n : Nat)
  | decompressError
  | decryptError
  | cipherNotReady
  | publicKeyDecompressError
  deriving Repr, DecidableEq

/-- Result of reading one log entry, following `ReadResult` in `error.rs`. -/
inductive ReadResult where
  | Success (n : Nat)
  | Eof
  | NeedRecover (code : Int)
  deriving Repr, DecidableEq

/-- Compression modes, following `CompressMode` in `reader/mod.rs`. -/
inductive CompressMode where
  | none
  | zlib
  deriving Repr, DecidableEq

/-- Encryption modes, following `EncryptMode` in `reader/mod.rs`. -/
inductive EncryptMode where
  | none
  | aes
  deriving Repr, DecidableEq

/-- `SINGLE_LOG_CONTENT_MAX_LENGTH` from `reader/mod.rs`: 16 * 1024. -/
def SINGLE_LOG_CONTENT_MAX_LENGTH : Nat := 16 * 1024

/-- `MAGIC_NUMBER` from `reader/mod.rs`. -/
def MAGIC_NUMBER : List Nat := [0x1B, 0xAD, 0xC0, 0xDE]

/-- `SYNC_MARKER` from `reader/mod.rs`. -/
def SYNC_MARKER : List Nat := [0xB7, 0xDB, 0xE7, 0xDB, 0x80, 0xAD, 0xD9, 0x57]

/-- Model of a `std::io::Read` source: `data` is the sequence of bytes still
to be delivered, `sched` bounds the sizes of the successive raw `read` calls
(the `Read` contract lets each call return fewer bytes than requested; an
empty schedule entry forces a zero-byte return, i.e. end-of-stream behaviour,
and once the schedule is exhausted every call is served in full). -/
structure ByteStream where
  data : List Nat
  sched : List Nat
  deriving Repr, DecidableEq

/-- One raw `input.read(&mut buf[..req])` call: returns at most `req` bytes,
always a prefix of the remaining data, bounded by the next schedule entry. -/
def ByteStream.rawRead (s : ByteStream) (req : Nat) : ByteStream × List Nat :=
  match s.sched with
  | [] =>
      let k := min req s.data.length
      (⟨s.data.drop k, []⟩, s.data.take k)
  | c :: rest =>
      let k := min (min req c) s.data.length
      (⟨s.data.drop k, rest⟩, s.data.take k)

/-- Overwrite `buf[off .. off + chunk.length)` with `chunk`, the effect of a
slice write `buf[off..][..chunk.len()].copy_from_slice(chunk)`. -/
def writeAt (buf : List Nat) (off : Nat) (chunk : List Nat) : List Nat :=
  buf.take off ++ chunk ++ buf.drop (off + chunk.length)

/-- Loop body of `read_safely` in `reader/mod.rs`, with explicit fuel (each
iteration reads at least one byte or aborts, so `expected + 1` units of fuel
always suffice; the fuel-exhausted branch is unreachable from `read_safely`). -/
def readSafelyLoop : Nat → ByteStream → Nat → List Nat → Nat →
    ByteStream × List Nat × Except GlogError Nat
  | 0, s, _, filled, totalRead => (s, filled, .ok totalRead)
  | fuel + 1, s, expected, filled, totalRead =>
      if totalRead < expected then
        let p := s.rawRead (expected - totalRead)
        if p.2.length = 0 then
          (p.1, filled, .error (.unexpectedEof expected totalRead))
        else
          readSafelyLoop fuel p.1 expected (writeAt filled totalRead p.2)
            (totalRead + p.2.length)
      else
        (s, filled, .ok totalRead)

/-- `read_safely(input, expected, filled)` from `reader/mod.rs`: loop reading
into `filled[total_read..expected]` until `expected` bytes are read, failing
with `UnexpectedEof { expected, available: total_read }` if a raw read yields
zero bytes first.  Returns the stream, the (possibly partially written)
buffer, and the result. -/
def read_safely (s : ByteStream) (expected : Nat) (filled : List Nat) :
    ByteStream × List Nat × Except GlogError Nat :=
  readSafelyLoop (expected + 1) s expected filled 0

/-- Read `n` bytes into a fresh zeroed buffer (`let mut buf = vec![0u8; n];
read_safely(input, n, &mut buf)`), returning the buffer on success. -/
def readBytes (s : ByteStream) (n : Nat) :
    ByteStream × Except GlogError (List Nat) :=
  let r := read_safely s n (List.replicate n 0)
  match r.2.2 with
  | .ok _ => (r.1, .ok r.2.1)
  | .error e => (r.1, .error e)

/-- `u16::from_le_bytes` on a two-byte buffer. -/
def leU16 (b : List Nat) : Nat := b.headD 0 + 256 * b.tail.headD 0

/-- `read_u16_le` from `reader/mod.rs`: two bytes, combined little-endian. -/
def read_u16_le (s : ByteStream) : ByteStream × Except GlogError Nat :=
  match readBytes s 2 with
  | (s1, .ok b) => (s1, .ok (leU16 b))
  | (s1, .error e) => (s1, .error e)

/-- Abstraction of the raw-deflate decoder behind flate2's `Decompress`:
given the full history of input chunks fed so far (latest last) and the
capacity of the output buffer, produce the bytes emitted for the latest chunk,
or `none` for a malformed stream (`DecompressError`). -/
abbrev InflateFn := List (List Nat) → Nat → Option (List Nat)

/-- State of `StatefulInflater` (`reader/mod.rs`): the single long-lived
`Decompress` context is characterised by the history of inputs fed to it. -/
structure StatefulInflater where
  fed : List (List Nat)
  deriving Repr, DecidableEq

/-- `StatefulInflater::new()`: fresh raw-deflate context, nothing fed yet. -/
def StatefulInflater.new : StatefulInflater := ⟨[]⟩

/-- `StatefulInflater::decompress(in_buf, out_buf)` from `reader/mod.rs`:
feed `in_buf` to the long-lived context (extending the fed history) and emit
up to `outCap` bytes.  The truncation to `outCap` reflects that the Rust
callee can never write outside the `&mut [u8]` output slice. -/
def StatefulInflater.decompress (inflate : InflateFn) (st : StatefulInflater)
    (inBuf : List Nat) (outCap : Nat) :
    StatefulInflater × Except GlogError (List Nat) :=
  let st1 : StatefulInflater := ⟨st.fed ++ [inBuf]⟩
  match inflate st1.fed outCap with
  | Option.none => (st1, .error .decompressError)
  | Option.some out => (st1, .ok (out.take outCap))

/-- Shared per-entry output step of `FileReaderV3::read` / `FileReaderV4::read`:
given the entry's (decrypted) bytes `buf` and the caller's buffer `outBuf`,
either feed `buf` to the stateful inflater (Zlib) or copy
`min(buf.len, out.len)` bytes (None).  Returns the inflater, the new output
buffer contents and the produced length (or the decompression error). -/
def applyCompress (inflate : InflateFn) (cm : CompressMode)
    (inf : StatefulInflater) (buf outBuf : List Nat) :
    StatefulInflater × List Nat × Except GlogError Nat :=
  match cm with
  | CompressMode.zlib =>
      match inf.decompress inflate buf outBuf.length with
      | (st1, .error e) => (st1, outBuf, .error e)
      | (st1, .ok out) => (st1, out ++ outBuf.drop out.length, .ok out.length)
  | CompressMode.none =>
      let copyLen := min buf.length outBuf.length
      (inf, buf.take copyLen ++ outBuf.drop copyLen, .ok copyLen)

/-- State of `FileReaderV3` (`reader/v3.rs`). -/
structure FileReaderV3 where
  input : ByteStream
  compress_mode : CompressMode
  encrypt_mode : EncryptMode
  position : Nat
  size : Nat
  inflater : StatefulInflater
  deriving Repr, DecidableEq

/-- `FileReaderV3::from_reader` / `new`: fresh reader positioned after the
4-byte magic and 1-byte version, with a newly created stateful inflater. -/
def FileReaderV3.mk0 (input : ByteStream) (size : Nat) : FileReaderV3 :=
  ⟨input, CompressMode.none, EncryptMode.none, 5, size, StatefulInflater.new⟩

/-- `FileReaderV3::space_left`: `if size <= position { 0 } else { size - position }`. -/
def FileReaderV3.space_left (r : FileReaderV3) : Nat :=
  if r.size ≤ r.position then 0 else r.size - r.position

/-- `FileReaderV3::log_store_size(len)`: length field (2) + data + sync marker (8). -/
def FileReaderV3.log_store_size (len : Nat) : Nat := 2 + len + 8

/-- `FileReaderV3::read_remain_header` from `reader/v3.rs`: parse the mode
byte (high nibble compression: 0 None / 1 Zlib, low nibble encryption:
0 None / 1 Aes, anything else a format error), the proto name, and the
header's sync marker; set `position` to the bytes of header consumed. -/
def FileReaderV3.read_remain_header (r : FileReaderV3) :
    FileReaderV3 × Except GlogError Unit :=
  match readBytes r.input 1 with
  | (s1, .error e) => ({ r with input := s1 }, .error e)
  | (s1, .ok msb) =>
    let ms := msb.headD 0
    let r1 := { r with input := s1 }
    if ms >>> 4 ≥ 2 then (r1, .error (.illegalCompressMode (ms >>> 4)))
    else
      let r2 := { r1 with
        compress_mode := if ms >>> 4 = 0 then CompressMode.none else CompressMode.zlib }
      if ms &&& 0x0F ≥ 2 then (r2, .error (.illegalEncryptMode (ms &&& 0x0F)))
      else
        let r3 := { r2 with
          encrypt_mode := if ms &&& 0x0F = 0 then EncryptMode.none else EncryptMode.aes }
        match read_u16_le r3.input with
        | (s2, .error e) => ({ r3 with input := s2 }, .error e)
        | (s2, .ok protoNameLen) =>
          let r4 := { r3 with input := s2 }
          let required := protoNameLen + 8
          let available := r4.space_left
          if available < required then
            (r4, .error (.unexpectedEof required available))
          else
            match readBytes r4.input protoNameLen with
            | (s3, .error e) => ({ r4 with input := s3 }, .error e)
            | (s3, .ok _name) =>
              let r5 := { r4 with input := s3 }
              match readBytes r5.input 8 with
              | (s4, .error e) => ({ r5 with input := s4 }, .error e)
              | (s4, .ok sync) =>
                let r6 := { r5 with input := s4 }
                if sync ≠ SYNC_MARKER then (r6, .error .syncMarkerMismatch)
                else
                  ({ r6 with position := 4 + 1 + 1 + 2 + protoNameLen + 8 }, .ok ())

/-- Trailing part of `FileReaderV3::read`: read the 8 sync-marker bytes; on
mismatch return `NeedRecover(-3)` without advancing `position` past them, on
match advance `position` by 8 and return `Success(finalLength)`. -/
def FileReaderV3.finish (r : FileReaderV3) (outBuf : List Nat) (finalLength : Nat) :
    FileReaderV3 × List Nat × Except GlogError ReadResult :=
  match readBytes r.input 8 with
  | (s, .error e) => ({ r with input := s }, outBuf, .error e)
  | (s, .ok sync) =>
    let r1 := { r with input := s }
    if sync ≠ SYNC_MARKER then (r1, outBuf, .ok (.NeedRecover (-3)))
    else ({ r1 with position := r1.position + 8 }, outBuf, .ok (.Success finalLength))

/-- `FileReaderV3::read` from `reader/v3.rs`, mirrored step for step:
Eof guard, length field, space check, length validation, payload read,
compression dispatch, sync-marker check. -/
def FileReaderV3.read (inflate : InflateFn) (r : FileReaderV3) (outBuf : List Nat) :
    FileReaderV3 × List Nat × Except GlogError ReadResult :=
  if r.space_left < FileReaderV3.log_store_size 1 then (r, outBuf, .ok .Eof)
  else
    match read_u16_le r.input with
    | (s1, .error e) => ({ r with input := s1 }, outBuf, .error e)
    | (s1, .ok logLength) =>
      let r1 := { r with input := s1, position := r.position + 2 }
      let required := logLength + 8
      let available := r1.space_left
      if available < required then
        (r1, outBuf, .error (.unexpectedEof required available))
      else if logLength = 0 ∨ logLength > SINGLE_LOG_CONTENT_MAX_LENGTH then
        (r1, outBuf, .ok (.NeedRecover (-2)))
      else
        match readBytes r1.input logLength with
        | (s2, .error e) => ({ r1 with input := s2 }, outBuf, .error e)
        | (s2, .ok buf) =>
          let r2 := { r1 with input := s2, position := r1.position + logLength }
          match applyCompress inflate r2.compress_mode r2.inflater buf outBuf with
          | (st1, out1, .error e) => ({ r2 with inflater := st1 }, out1, .error e)
          | (st1, out1, .ok finalLength) =>
            FileReaderV3.finish { r2 with inflater := st1 } out1 finalLength

/-- Iterate `FileReaderV3::read`, the caller reusing its output buffer, as the
decode loop does; only the reader state is kept. -/
def FileReaderV3.readN (inflate : InflateFn) : Nat → FileReaderV3 → List Nat → FileReaderV3
  | 0, r, _ => r
  | n + 1, r, outBuf =>
      let p := FileReaderV3.read inflate r outBuf
      FileReaderV3.readN inflate n p.1 p.2.1

/-- Abstraction of the ECDH derivation in `get_shared_key_cached`
(point decompression + `k256::ecdh::diffie_hellman` for the reader's fixed
server private key): maps the 33-byte compressed client public key to the
shared-secret bytes, or `none` when the point is invalid. -/
abbrev DeriveFn := List Nat → Option (List Nat)

/-- Abstraction of AES-128-CFB decryption (`Aes128CfbDec::decrypt`):
key (16 bytes), IV (16 bytes), ciphertext ↦ plaintext. -/
abbrev CfbFn := List Nat → List Nat → List Nat → List Nat

/-- Force a list to length `n` (pad with zeros / truncate).  Used to encode
that in-place AES-CFB decryption of a buffer cannot change its length. -/
def padTrunc (n : Nat) (l : List Nat) : List Nat :=
  (l ++ List.replicate n 0).take n

/-- Lookup in the shared-key cache, the association-list view of the
`HashMap<[u8; 33], Vec<u8>>` in `FileReaderV4`. -/
def lookupCache : List (List Nat × List Nat) → List Nat → Option (List Nat)
  | [], _ => Option.none
  | (k, v) :: rest, key => if k = key then Option.some v else lookupCache rest key

/-- State of `FileReaderV4` (`reader/v4.rs`).  `hasKey` models
`svr_pri_key.is_some()` (and equally `svr_ec_pri_key.is_some()`: both are set
together at construction). -/
structure FileReaderV4 where
  input : ByteStream
  hasKey : Bool
  position : Nat
  size : Nat
  inflater : StatefulInflater
  shared_key_cache : List (List Nat × List Nat)
  deriving Repr, DecidableEq

/-- `FileReaderV4::from_reader` / `new`: fresh reader positioned after magic
and version, with a new inflater and an empty shared-key cache. -/
def FileReaderV4.mk0 (input : ByteStream) (size : Nat) (hasKey : Bool) : FileReaderV4 :=
  ⟨input, hasKey, 5, size, StatefulInflater.new, []⟩

/-- `FileReaderV4::space_left`: `if size <= position { 0 } else { size - position }`. -/
def FileReaderV4.space_left (r : FileReaderV4) : Nat :=
  if r.size ≤ r.position then 0 else r.size - r.position

/-- `FileReaderV4::get_shared_key_cached` from `reader/v4.rs`: serve the
shared secret from the cache when present; otherwise require the private key,
derive, and insert the result under the exact 33-byte compressed key. -/
def FileReaderV4.get_shared_key_cached (derive : DeriveFn) (r : FileReaderV4)
    (ck : List Nat) : FileReaderV4 × Except GlogError (List Nat) :=
  match lookupCache r.shared_key_cache ck with
  | Option.some v => (r, .ok v)
  | Option.none =>
    if r.hasKey = false then (r, .error .cipherNotReady)
    else
      match derive ck with
      | Option.none => (r, .error .publicKeyDecompressError)
      | Option.some kb =>
          ({ r with shared_key_cache := (ck, kb) :: r.shared_key_cache }, .ok kb)

/-- `FileReaderV4::decrypt` from `reader/v4.rs`: fetch the (cached) shared
secret, use its first 16 bytes as the AES-128 key and decrypt the ciphertext
in place with AES-128-CFB under the given IV (length-preserving). -/
def FileReaderV4.decrypt (derive : DeriveFn) (cfb : CfbFn) (r : FileReaderV4)
    (ck iv ct : List Nat) : FileReaderV4 × Except GlogError (List Nat) :=
  match r.get_shared_key_cached derive ck with
  | (r1, .error e) => (r1, .error e)
  | (r1, .ok aesKey) =>
    if aesKey.length < 16 then (r1, .error .decryptError)
    else if iv.length ≠ 16 then (r1, .error .decryptError)
    else (r1, .ok (padTrunc ct.length (cfb (aesKey.take 16) iv ct)))

/-- `FileReaderV4::read_remain_header` from `reader/v4.rs`: proto name length,
proto name, header sync marker; set `position` to the header size. -/
def FileReaderV4.read_remain_header (r : FileReaderV4) :
    FileReaderV4 × Except GlogError Unit :=
  match read_u16_le r.input with
  | (s1, .error e) => ({ r with input := s1 }, .error e)
  | (s1, .ok protoNameLen) =>
    let r1 := { r with input := s1 }
    match readBytes r1.input protoNameLen with
    | (s2, .error e) => ({ r1 with input := s2 }, .error e)
    | (s2, .ok _name) =>
      let r2 := { r1 with input := s2 }
      match readBytes r2.input 8 with
      | (s3, .error e) => ({ r2 with input := s3 }, .error e)
      | (s3, .ok sync) =>
        let r3 := { r2 with input := s3 }
        if sync ≠ SYNC_MARKER then (r3, .error .syncMarkerMismatch)
        else ({ r3 with position := 4 + 1 + 2 + protoNameLen + 8 }, .ok ())

/-- Trailing part of `FileReaderV4::read`: read the 8 sync-marker bytes; on
mismatch return `NeedRecover(-7)` without advancing `position` past them, on
match advance `position` by 8 and return `Success(finalLength)`. -/
def FileReaderV4.finish (r : FileReaderV4) (outBuf : List Nat) (finalLength : Nat) :
    FileReaderV4 × List Nat × Except GlogError ReadResult :=
  match readBytes r.input 8 with
  | (s, .error e) => ({ r with input := s }, outBuf, .error e)
  | (s, .ok sync) =>
    let r1 := { r with input := s }
    if sync ≠ SYNC_MARKER then (r1, outBuf, .ok (.NeedRecover (-7)))
    else ({ r1 with position := r1.position + 8 }, outBuf, .ok (.Success finalLength))

/-- The V4 compression-nibble dispatch (`match ms >> 4` in `reader/v4.rs`):
`1` is no compression, `2` is Zlib, anything else is rejected. -/
def v4ParseCompress (n : Nat) : Option CompressMode :=
  if n = 1 then Option.some CompressMode.none
  else if n = 2 then Option.some CompressMode.zlib
  else Option.none

/-- The V4 encryption-nibble dispatch (`match ms & 0x0F` in `reader/v4.rs`):
`1` is no encryption, `2` is AES, anything else is rejected. -/
def v4ParseEncrypt (n : Nat) : Option EncryptMode :=
  if n = 1 then Option.some EncryptMode.none
  else if n = 2 then Option.some EncryptMode.aes
  else Option.none

/-- `FileReaderV4::read` from `reader/v4.rs`, mirrored step for step:
Eof guard, mode byte (high nibble 1 None / 2 Zlib else `NeedRecover(-2)`,
low nibble 1 None / 2 Aes else `NeedRecover(-3)`), `CipherNotReady` guard,
then the encrypted branch (IV, compressed public key, length, ciphertext,
decrypt, `NeedRecover(-4)`/`NeedRecover(-5)`) or the plain branch
(length, payload, `NeedRecover(-6)`), compression dispatch, and the
sync-marker check (`NeedRecover(-7)`). -/
def FileReaderV4.read (inflate : InflateFn) (derive : DeriveFn) (cfb : CfbFn)
    (r : FileReaderV4) (outBuf : List Nat) :
    FileReaderV4 × List Nat × Except GlogError ReadResult :=
  if r.space_left < 1 + 2 + 8 then (r, outBuf, .ok .Eof)
  else
    match readBytes r.input 1 with
    | (s1, .error e) => ({ r with input := s1 }, outBuf, .error e)
    | (s1, .ok msb) =>
      let ms := msb.headD 0
      let r1 := { r with input := s1 }
      match v4ParseCompress (ms >>> 4) with
      | Option.none => (r1, outBuf, .ok (.NeedRecover (-2)))
      | Option.some compressMode =>
        match v4ParseEncrypt (ms &&& 0x0F) with
        | Option.none => (r1, outBuf, .ok (.NeedRecover (-3)))
        | Option.some encryptMode =>
          if encryptMode = EncryptMode.aes ∧ r1.hasKey = false then
            (r1, outBuf, .error .cipherNotReady)
          else
            let r2 := { r1 with position := r1.position + 1 }
            if encryptMode = EncryptMode.aes then
              match readBytes r2.input 16 with
              | (s2, .error e) => ({ r2 with input := s2 }, outBuf, .error e)
              | (s2, .ok iv) =>
                match readBytes s2 33 with
                | (s3, .error e) => ({ r2 with input := s3 }, outBuf, .error e)
                | (s3, .ok ck) =>
                  let r3 := { r2 with input := s3, position := r2.position + 16 + 33 }
                  match read_u16_le r3.input with
                  | (s4, .error e) => ({ r3 with input := s4 }, outBuf, .error e)
                  | (s4, .ok logLength) =>
                    let r4 := { r3 with input := s4 }
                    if logLength = 0 ∨ logLength > SINGLE_LOG_CONTENT_MAX_LENGTH then
                      (r4, outBuf, .ok (.NeedRecover (-4)))
                    else
                      let r5 := { r4 with position := r4.position + 2 + logLength }
                      match readBytes r5.input logLength with
                      | (s5, .error e) => ({ r5 with input := s5 }, outBuf, .error e)
                      | (s5, .ok buf) =>
                        let r6 := { r5 with input := s5 }
                        match r6.decrypt derive cfb ck iv buf with
                        | (r7, .error _) => (r7, outBuf, .ok (.NeedRecover (-5)))
                        | (r7, .ok plain) =>
                          match applyCompress inflate compressMode r7.inflater plain outBuf with
                          | (st1, out1, .error e) =>
                              ({ r7 with inflater := st1 }, out1, .error e)
                          | (st1, out1, .ok finalLength) =>
                              FileReaderV4.finish { r7 with inflater := st1 } out1 finalLength
            else
              match read_u16_le r2.input with
              | (s2, .error e) => ({ r2 with input := s2 }, outBuf, .error e)
              | (s2, .ok logLength) =>
                let r3 := { r2 with input := s2 }
                if logLength = 0 ∨ logLength > SINGLE_LOG_CONTENT_MAX_LENGTH then
                  (r3, outBuf, .ok (.NeedRecover (-6)))
                else
                  let r4 := { r3 with position := r3.position + 2 + logLength }
                  match readBytes r4.input logLength with
                  | (s3, .error e) => ({ r4 with input := s3 }, outBuf, .error e)
                  | (s3, .ok buf) =>
                    let r5 := { r4 with input := s3 }
                    match applyCompress inflate compressMode r5.inflater buf outBuf with
                    | (st1, out1, .error e) =>
                        ({ r5 with inflater := st1 }, out1, .error e)
                    | (st1, out1, .ok finalLength) =>
                        FileReaderV4.finish { r5 with inflater := st1 } out1 finalLength

/-- Iterate `FileReaderV4::read`, the caller reusing its output buffer, as the
decode loop does; only the reader state is kept. -/
def FileReaderV4.readN (inflate : InflateFn) (derive : DeriveFn) (cfb : CfbFn) :
    Nat → FileReaderV4 → List Nat → FileReaderV4
  | 0, r, _ => r
  | n + 1, r, outBuf =>
      let p := FileReaderV4.read inflate derive cfb r outBuf
      FileReaderV4.readN inflate derive cfb n p.1 p.2.1

/-! Framing lemmas: a raw read returns a prefix of the remaining data, and the
`read_safely` loop therefore fills the target slice with the next bytes of the
stream, leaving the rest of the buffer untouched. -/

lemma rawRead_spec (s : ByteStream) (req : Nat) :
    ∃ k, k ≤ req ∧ k ≤ s.data.length ∧
      s.rawRead req = (⟨s.data.drop k, (s.rawRead req).1.sched⟩, s.data.take k) := by
  unfold ByteStream.rawRead
  cases h : s.sched with
  | nil => exact ⟨min req s.data.length, Nat.min_le_left _ _, Nat.min_le_right _ _, by simp⟩
  | cons c rest =>
      exact ⟨min (min req c) s.data.length,
        le_trans (Nat.min_le_left _ _) (Nat.min_le_left _ _), Nat.min_le_right _ _, by simp⟩

lemma writeAt_take_full (filled c : List Nat) (t : Nat) :
    (writeAt filled t c).take (t + c.length) = filled.take t ++ c := by
  unfold writeAt
  rw [List.take_append_eq_append_take, List.take_append_eq_append_take]
  rw [List.take_take]
  have h1 : min (t + c.length) t = t := by omega
  rw [h1]
  rcases le_or_lt t filled.length with ht | ht
  · have h2 : (filled.take t).length = t := by simp [ht]
    rw [h2]
    have h3 : t + c.length - t = c.length := by omega
    rw [h3, List.take_length]
    simp
    omega
  · have h2 : (filled.take t).length = filled.length := by simp; omega
    rw [h2]
    have h3 : c.take (t + c.length - filled.length) = c :=
      List.take_of_length_le (by omega)
    rw [h3]
    have h4 : (filled.drop (t + c.length)) = [] :=
      List.drop_eq_nil_of_le (by omega)
    simp [h4]

lemma writeAt_drop (filled c : List Nat) (t j : Nat) (hj : t + c.length ≤ j) :
    (writeAt filled t c).drop j = filled.drop j := by
  unfold writeAt
  rw [List.drop_append_eq_append_drop, List.drop_append_eq_append_drop]
  have h3 : (filled.take t).drop j = [] := List.drop_eq_nil_of_le (by simp; omega)
  have h4 : c.drop (j - (filled.take t).length) = [] :=
    List.drop_eq_nil_of_le (by simp; omega)
  rw [h3, h4, List.drop_drop]
  simp
  rcases le_or_lt t filled.length with ht | ht
  · congr 1
    omega
  · have h6 : filled.drop j = [] := List.drop_eq_nil_of_le (by omega)
    have h5 : filled.drop (t + c.length + (j - (t ⊓ filled.length + c.length))) = [] :=
      List.drop_eq_nil_of_le (by omega)
    rw [h5, h6]

lemma writeAt_length (filled c : List Nat) (t : Nat) (h : t + c.length ≤ filled.length) :
    (writeAt filled t c).length = filled.length := by
  unfold writeAt
  simp
  omega

lemma readSafelyLoop_spec : ∀ (fuel : Nat) (s : ByteStream) (expected totalRead : Nat)
    (filled : List Nat), expected - totalRead < fuel → totalRead ≤ expected →
    ∃ j sch,
      totalRead ≤ j ∧ j ≤ expected ∧ j - totalRead ≤ s.data.length ∧
      readSafelyLoop fuel s expected filled totalRead =
        (⟨s.data.drop (j - totalRead), sch⟩,
         filled.take totalRead ++ s.data.take (j - totalRead) ++ filled.drop j,
         if j = expected then .ok j else .error (.unexpectedEof expected j))
  | 0, s, expected, totalRead, filled, hfuel, hle => by
      have h0 : totalRead = expected := by omega
      refine ⟨totalRead, s.sched, le_refl _, by omega, by simp, ?_⟩
      subst h0
      simp [readSafelyLoop, List.take_append_drop]
  | fuel + 1, s, expected, totalRead, filled, hfuel, hle => by
      unfold readSafelyLoop
      by_cases ht : totalRead < expected
      · rw [if_pos ht]
        obtain ⟨k, hkreq, hklen, hraw⟩ := rawRead_spec s (expected - totalRead)
        rw [hraw]
        simp only
        have hchunklen : (s.data.take k).length = k := by simp [hklen]
        by_cases hk0 : k = 0
        · subst hk0
          rw [if_pos (by simp [hchunklen])]
          refine ⟨totalRead, (s.rawRead (expected - totalRead)).1.sched,
            le_refl _, by omega, by simp, ?_⟩
          rw [if_neg (by omega)]
          simp [List.take_append_drop]
        · rw [if_neg (by simp [hchunklen]; omega)]
          rw [hchunklen]
          obtain ⟨j, sch, hj1, hj2, hj3, hrec⟩ :=
            readSafelyLoop_spec fuel ⟨s.data.drop k, _⟩ expected (totalRead + k)
              (writeAt filled totalRead (s.data.take k)) (by omega) (by omega)
          rw [hrec]
          refine ⟨j, sch, by omega, hj2, ?_, ?_⟩
          · simp at hj3
            omega
          · congr 1
            · congr 1
              simp only [List.drop_drop]
              congr 1
              omega
            congr 1
            · have h1 : (writeAt filled totalRead (s.data.take k)).take (totalRead + k)
                  = filled.take totalRead ++ s.data.take k := by
                have := writeAt_take_full filled (s.data.take k) totalRead
                rw [hchunklen] at this
                exact this
              rw [h1]
              have h2 : ((s.data.drop k).take (j - (totalRead + k)))
                  = (s.data.drop k).take (j - totalRead - k) := by congr 1; omega
              rw [List.append_assoc, h2]
              have h3 : s.data.take (j - totalRead)
                  = s.data.take k ++ (s.data.drop k).take (j - totalRead - k) := by
                rw [← List.take_add]
                congr 1
                omega
              rw [h3]
              have h4 : (writeAt filled totalRead (s.data.take k)).drop j
                  = filled.drop j := by
                apply writeAt_drop
                rw [hchunklen]
                omega
              rw [h4]
              simp [List.append_assoc]
      · rw [if_neg ht]
        have h0 : totalRead = expected := by omega
        refine ⟨totalRead, s.sched, le_refl _, by omega, by simp, ?_⟩
        subst h0
        simp [List.take_append_drop]


lemma read_safely_spec (s : ByteStream) (n : Nat) (filled : List Nat) :
    ∃ j sch, j ≤ n ∧ j ≤ s.data.length ∧
      read_safely s n filled =
        (⟨s.data.drop j, sch⟩, s.data.take j ++ filled.drop j,
         if j = n then .ok j else .error (.unexpectedEof n j)) := by
  obtain ⟨j, sch, _, hj2, hj3, heq⟩ :=
    readSafelyLoop_spec (n + 1) s n 0 filled (by omega) (by omega)
  refine ⟨j, sch, hj2, by omega, ?_⟩
  unfold read_safely
  rw [heq]
  simp

lemma readBytes_ok {s s1 : ByteStream} {n : Nat} {buf : List Nat}
    (h : readBytes s n = (s1, .ok buf)) :
    buf = s.data.take n ∧ buf.length = n ∧ s1.data = s.data.drop n ∧
      n ≤ s.data.length := by
  obtain ⟨j, sch, hj1, hj2, heq⟩ := read_safely_spec s n (List.replicate n 0)
  unfold readBytes at h
  rw [heq] at h
  by_cases hjn : j = n
  · subst hjn
    simp at h
    obtain ⟨h1, h2⟩ := h
    refine ⟨h2.symm, ?_, ?_, hj2⟩
    · rw [← h2]; simp; omega
    · rw [← h1]
  · simp [hjn] at h


lemma readBytes_err {s s1 : ByteStream} {n : Nat} {e : GlogError}
    (h : readBytes s n = (s1, .error e)) :
    ∃ j, j < n ∧ e = .unexpectedEof n j ∧ s1.data = s.data.drop j := by
  obtain ⟨j, sch, hj1, hj2, heq⟩ := read_safely_spec s n (List.replicate n 0)
  unfold readBytes at h
  rw [heq] at h
  by_cases hjn : j = n
  · simp [hjn] at h
  · simp [hjn] at h
    exact ⟨j, by omega, h.2.symm, by rw [← h.1]⟩

lemma read_u16_le_ok {s s1 : ByteStream} {v : Nat}
    (h : read_u16_le s = (s1, .ok v)) :
    v = leU16 (s.data.take 2) ∧ s1.data = s.data.drop 2 ∧ 2 ≤ s.data.length := by
  unfold read_u16_le at h
  cases hb : readBytes s 2 with
  | mk s2 res =>
    cases res with
    | error e => rw [hb] at h; simp at h
    | ok b =>
      rw [hb] at h
      simp at h
      obtain ⟨hbuf, _, hdata, hlen⟩ := readBytes_ok hb
      exact ⟨by rw [← h.2, hbuf], by rw [← h.1, hdata], hlen⟩

lemma read_u16_le_err {s s1 : ByteStream} {e : GlogError}
    (h : read_u16_le s = (s1, .error e)) :
    ∃ j, j < 2 ∧ e = .unexpectedEof 2 j ∧ s1.data = s.data.drop j := by
  unfold read_u16_le at h
  cases hb : readBytes s 2 with
  | mk s2 res =>
    cases res with
    | error e2 =>
      rw [hb] at h
      simp at h
      obtain ⟨j, hj, he, hd⟩ := readBytes_err hb
      exact ⟨j, hj, by rw [← h.2, he], by rw [← h.1, hd]⟩
    | ok b => rw [hb] at h; simp at h

lemma applyCompress_fed (inflate : InflateFn) (cm : CompressMode)
    (inf : StatefulInflater) (buf outBuf : List Nat) :
    (applyCompress inflate cm inf buf outBuf).1.fed
      = if cm = CompressMode.zlib then inf.fed ++ [buf] else inf.fed := by
  cases cm with
  | zlib =>
      unfold applyCompress StatefulInflater.decompress
      cases h : inflate (inf.fed ++ [buf]) outBuf.length <;> simp [h]
  | none => simp [applyCompress]

lemma applyCompress_ok {inflate : InflateFn} {cm : CompressMode}
    {inf st1 : StatefulInflater} {buf outBuf out1 : List Nat} {n : Nat}
    (h : applyCompress inflate cm inf buf outBuf = (st1, out1, .ok n)) :
    n ≤ outBuf.length ∧ out1.length = outBuf.length ∧ out1.drop n = outBuf.drop n ∧
      (cm = CompressMode.none → n ≤ buf.length) := by
  cases cm with
  | zlib =>
      cases hi : inflate (inf.fed ++ [buf]) outBuf.length with
      | none =>
          simp only [applyCompress, StatefulInflater.decompress, hi] at h
          simp at h
      | some out =>
          simp only [applyCompress, StatefulInflater.decompress, hi] at h
          rw [Prod.mk.injEq, Prod.mk.injEq] at h
          obtain ⟨_, hout, hres⟩ := h
          injection hres with hn0
          have hn : n = (out.take outBuf.length).length := hn0.symm
          have hlen : (out.take outBuf.length).length ≤ outBuf.length := by simp
          refine ⟨by omega, ?_, ?_, by intro hc; cases hc⟩
          · rw [← hout]; simp
          · rw [← hout, hn, List.drop_left]
  | none =>
      simp only [applyCompress] at h
      rw [Prod.mk.injEq, Prod.mk.injEq] at h
      obtain ⟨_, hout, hres⟩ := h
      injection hres with hn0
      have hn : n = min buf.length outBuf.length := hn0.symm
      have hl : (buf.take (min buf.length outBuf.length)).length
          = min buf.length outBuf.length := by simp
      refine ⟨by omega, ?_, ?_, fun _ => by omega⟩
      · rw [← hout]; simp
      · rw [← hout, hn, List.drop_append_eq_append_drop, hl]
        have h1 : (buf.take (min buf.length outBuf.length)).drop
            (min buf.length outBuf.length) = [] :=
          List.drop_eq_nil_of_le (by simp)
        simp [h1]

lemma v3_read_success {inflate : InflateFn} {r r1 : FileReaderV3}
    {outBuf out1 : List Nat} {n : Nat}
    (h : FileReaderV3.read inflate r outBuf = (r1, out1, .ok (.Success n))) :
    ∃ logLength buf,
      2 ≤ r.input.data.length ∧
      logLength = leU16 (r.input.data.take 2) ∧
      buf = (r.input.data.drop 2).take logLength ∧
      buf.length = logLength ∧
      1 ≤ logLength ∧ logLength ≤ SINGLE_LOG_CONTENT_MAX_LENGTH ∧
      (r.input.data.drop (2 + logLength)).take 8 = SYNC_MARKER ∧
      8 ≤ (r.input.data.drop (2 + logLength)).length ∧
      r1.input.data = (r.input.data.drop (2 + logLength)).drop 8 ∧
      r1.position = r.position + 2 + logLength + 8 ∧
      r1.inflater.fed = (if r.compress_mode = CompressMode.zlib
        then r.inflater.fed ++ [buf] else r.inflater.fed) ∧
      n ≤ outBuf.length ∧ out1.length = outBuf.length ∧ out1.drop n = outBuf.drop n ∧
      (r.compress_mode = CompressMode.none → n ≤ logLength) := by
  unfold FileReaderV3.read at h
  by_cases h0 : r.space_left < FileReaderV3.log_store_size 1
  · rw [if_pos h0] at h
    simp at h
  rw [if_neg h0] at h
  cases hu : read_u16_le r.input with
  | mk s1 res1 =>
    cases res1 with
    | error e => rw [hu] at h; simp at h
    | ok logLength =>
      rw [hu] at h
      simp only at h
      obtain ⟨hv, hs1, hlen2⟩ := read_u16_le_ok hu
      by_cases h1 : ({ r with input := s1, position := r.position + 2 } :
          FileReaderV3).space_left < logLength + 8
      · rw [if_pos h1] at h; simp at h
      rw [if_neg h1] at h
      by_cases h2 : logLength = 0 ∨ logLength > SINGLE_LOG_CONTENT_MAX_LENGTH
      · rw [if_pos h2] at h; simp at h
      rw [if_neg h2] at h
      cases hb : readBytes s1 logLength with
      | mk s2 res2 =>
        cases res2 with
        | error e => rw [hb] at h; simp at h
        | ok buf =>
          rw [hb] at h
          simp only at h
          obtain ⟨hbuf, hbuflen, hs2, hlenb⟩ := readBytes_ok hb
          cases hac : applyCompress inflate r.compress_mode r.inflater buf outBuf with
          | mk st1 p =>
            cases p with
            | mk outx resx =>
              cases resx with
              | error e => rw [hac] at h; simp at h
              | ok finalLength =>
                rw [hac] at h
                simp only [FileReaderV3.finish] at h
                cases hb2 : readBytes s2 8 with
                | mk s3 res3 =>
                  cases res3 with
                  | error e => rw [hb2] at h; simp at h
                  | ok sync =>
                    rw [hb2] at h
                    simp only at h
                    obtain ⟨hsync, hsynclen, hs3, hlen8⟩ := readBytes_ok hb2
                    by_cases h3 : sync ≠ SYNC_MARKER
                    · rw [if_pos h3] at h; simp at h
                    rw [if_neg h3] at h
                    push_neg at h3
                    rw [Prod.mk.injEq, Prod.mk.injEq] at h
                    obtain ⟨hr1, hout1, hres⟩ := h
                    injection hres with hres1
                    injection hres1 with hn
                    obtain ⟨hnle, ho1, ho2, ho3⟩ := applyCompress_ok hac
                    refine ⟨logLength, buf, hlen2, hv, by rw [hbuf, hs1], by omega, ?_, ?_,
                      ?_, ?_, ?_, ?_, ?_, ?_, ?_, ?_, ?_⟩
                    · omega
                    · omega
                    · rw [← h3, hsync, hs2, hs1, List.drop_drop]
                    · rw [hs2, hs1, List.drop_drop] at hlen8
                      simp only [List.length_drop] at hlen8 ⊢
                      omega
                    · rw [← hr1]
                      simp only
                      rw [hs3, hs2, hs1]
                      simp only [List.drop_drop]
                    · rw [← hr1]
                    · rw [← hr1]
                      simp
                      have := applyCompress_fed inflate r.compress_mode r.inflater buf outBuf
                      rw [hac] at this
                      simpa using this
                    · omega
                    · rw [← hout1]; omega
                    · rw [← hout1, ← hn]; exact ho2
                    · intro hcm; have := ho3 hcm; omega

lemma v3_finish_step (r : FileReaderV3) (outBuf : List Nat) (fl : Nat) :
    (FileReaderV3.finish r outBuf fl).1.inflater = r.inflater ∧
    (FileReaderV3.finish r outBuf fl).1.compress_mode = r.compress_mode ∧
    r.position ≤ (FileReaderV3.finish r outBuf fl).1.position := by
  unfold FileReaderV3.finish
  split
  next s e heq => simp
  next s sync heq =>
    split
    · simp
    · simp

lemma v3_read_step (inflate : InflateFn) (r : FileReaderV3) (outBuf : List Nat) :
    ∃ extra,
      (FileReaderV3.read inflate r outBuf).1.inflater.fed = r.inflater.fed ++ extra ∧
      (r.compress_mode = CompressMode.none → extra = []) ∧
      r.position ≤ (FileReaderV3.read inflate r outBuf).1.position := by
  unfold FileReaderV3.read
  split
  · exact ⟨[], by simp, fun _ => rfl, le_refl _⟩
  split
  next s1 e heq => exact ⟨[], by simp, fun _ => rfl, by simp⟩
  next s1 logLength heq =>
    simp only
    split
    · exact ⟨[], by simp, fun _ => rfl, by simp⟩
    split
    · exact ⟨[], by simp, fun _ => rfl, by simp⟩
    split
    next s2 e heq2 => exact ⟨[], by simp, fun _ => rfl, by simp⟩
    next s2 buf heq2 =>
      have hfed := applyCompress_fed inflate r.compress_mode r.inflater buf outBuf
      split
      next st1 o e heq3 =>
        rw [heq3] at hfed
        simp only at hfed
        refine ⟨if r.compress_mode = CompressMode.zlib then [buf] else [], ?_, ?_,
          by simp; omega⟩
        · simp only
          rw [hfed]
          split <;> simp
        · intro hc; rw [hc]; simp
      next st1 o fl heq3 =>
        rw [heq3] at hfed
        simp only at hfed
        obtain ⟨hf1, _, hf3⟩ := v3_finish_step
          { r with input := s2, position := r.position + 2 + logLength, inflater := st1 }
          o fl
        refine ⟨if r.compress_mode = CompressMode.zlib then [buf] else [], ?_, ?_, ?_⟩
        · rw [hf1]
          simp only
          rw [hfed]
          split <;> simp
        · intro hc; rw [hc]; simp
        · refine le_trans ?_ hf3
          (simp; omega)


lemma v3_readN_fed (inflate : InflateFn) :
    ∀ (n : Nat) (r : FileReaderV3) (outBuf : List Nat),
    ∃ extra, (FileReaderV3.readN inflate n r outBuf).inflater.fed
      = r.inflater.fed ++ extra
  | 0, r, outBuf => ⟨[], by simp [FileReaderV3.readN]⟩
  | n + 1, r, outBuf => by
      obtain ⟨e1, h1, _, _⟩ := v3_read_step inflate r outBuf
      obtain ⟨e2, h2⟩ := v3_readN_fed inflate n
        (FileReaderV3.read inflate r outBuf).1 (FileReaderV3.read inflate r outBuf).2.1
      refine ⟨e1 ++ e2, ?_⟩
      rw [FileReaderV3.readN, h2, h1, List.append_assoc]

lemma gskc_fields (derive : DeriveFn) (r : FileReaderV4) (ck : List Nat) :
    (r.get_shared_key_cached derive ck).1.position = r.position ∧
    (r.get_shared_key_cached derive ck).1.input = r.input ∧
    (r.get_shared_key_cached derive ck).1.inflater = r.inflater ∧
    (r.get_shared_key_cached derive ck).1.size = r.size := by
  unfold FileReaderV4.get_shared_key_cached
  split
  · simp
  · split
    · simp
    · split <;> simp

lemma decrypt_fields (derive : DeriveFn) (cfb : CfbFn) (r : FileReaderV4)
    (ck iv ct : List Nat) :
    (r.decrypt derive cfb ck iv ct).1.position = r.position ∧
    (r.decrypt derive cfb ck iv ct).1.input = r.input ∧
    (r.decrypt derive cfb ck iv ct).1.inflater = r.inflater ∧
    (r.decrypt derive cfb ck iv ct).1.size = r.size := by
  unfold FileReaderV4.decrypt
  obtain ⟨h1, h2, h3, h4⟩ := gskc_fields derive r ck
  split
  next r1 e heq => rw [heq] at h1 h2 h3 h4; exact ⟨h1, h2, h3, h4⟩
  next r1 v heq =>
    rw [heq] at h1 h2 h3 h4
    split
    · exact ⟨h1, h2, h3, h4⟩
    split
    · exact ⟨h1, h2, h3, h4⟩
    · exact ⟨h1, h2, h3, h4⟩

lemma v4_finish_step (r : FileReaderV4) (outBuf : List Nat) (fl : Nat) :
    (FileReaderV4.finish r outBuf fl).1.inflater = r.inflater ∧
    r.position ≤ (FileReaderV4.finish r outBuf fl).1.position := by
  unfold FileReaderV4.finish
  split
  next s e heq => simp
  next s sync heq =>
    split
    · simp
    · simp

lemma v4_read_step (inflate : InflateFn) (derive : DeriveFn) (cfb : CfbFn)
    (r : FileReaderV4) (outBuf : List Nat) :
    r.position ≤ (FileReaderV4.read inflate derive cfb r outBuf).1.position := by
  unfold FileReaderV4.read
  split
  · exact le_refl _
  split
  next s1 e heq => simp
  next s1 msb heq =>
    simp only
    split
    · simp
    next cm hpc =>
      split
      · simp
      next em hpe =>
        cases em with
        | none =>
          rw [if_neg (by simp)]
          rw [if_neg (by simp)]
          split
          next s2 e heq2 => simp
          next s2 logLength heq2 =>
            split
            · exact Nat.le_add_right _ _
            split
            next s3 e heq3 => simp; omega
            next s3 buf heq3 =>
              split
              next st1 o e heq4 => simp; omega
              next st1 o fl heq4 =>
                have hf := (v4_finish_step
                  { r with
                      input := s3, position := r.position + 1 + 2 + logLength,
                      inflater := st1 } o fl).2
                exact le_trans
                  (show r.position ≤ r.position + 1 + 2 + logLength by omega) hf
        | aes =>
          by_cases hK : ({ r with input := s1 } : FileReaderV4).hasKey = false
          · rw [if_pos ⟨rfl, hK⟩]
          · rw [if_neg (by simpa using hK)]
            rw [if_pos rfl]
            split
            next s2 e heq2 => simp
            next s2 iv heq2 =>
              split
              next s3 e heq3 => simp
              next s3 ck heq3 =>
                split
                next s4 e heq4 => simp; omega
                next s4 logLength heq4 =>
                  split
                  · exact show r.position ≤ r.position + 1 + 16 + 33 by omega
                  split
                  next s5 e heq5 => simp; omega
                  next s5 buf heq5 =>
                    split
                    next r7 e heq6 =>
                      have hp := (decrypt_fields derive cfb
                        { r with
                            input := s5,
                            position := r.position + 1 + 16 + 33 + 2 + logLength }
                        ck iv buf).1
                      rw [heq6] at hp
                      simp at hp
                      show r.position ≤ r7.position
                      omega
                    next r7 plain heq6 =>
                      have hp := (decrypt_fields derive cfb
                        { r with
                            input := s5,
                            position := r.position + 1 + 16 + 33 + 2 + logLength }
                        ck iv buf).1
                      rw [heq6] at hp
                      simp at hp
                      split
                      next st1 o e heq7 => simp [hp]; omega
                      next st1 o fl heq7 =>
                        have hf := (v4_finish_step { r7 with inflater := st1 } o fl).2
                        refine le_trans ?_ hf
                        simp [hp]
                        omega

/-- C9: for every 33-byte compressed client public key, once a shared-key
derivation has succeeded the result is cached under the exact key: a repeated
call returns the identical secret directly from the cache — independently of
the derivation function, so nothing is re-derived — and leaves the reader
unchanged; moreover any call only ever extends the cache (existing entries
survive). -/
theorem c9_ecdh_cache_idempotent (derive : DeriveFn) (r r1 : FileReaderV4)
    (ck v : List Nat)
    (h : FileReaderV4.get_shared_key_cached derive r ck = (r1, .ok v)) :
    (∀ derive2 : DeriveFn,
      FileReaderV4.get_shared_key_cached derive2 r1 ck = (r1, .ok v)) ∧
    (∀ k w, lookupCache r.shared_key_cache k = Option.some w →
      lookupCache r1.shared_key_cache k = Option.some w) := by
  unfold FileReaderV4.get_shared_key_cached at h
  cases hl : lookupCache r.shared_key_cache ck with
  | some v0 =>
      rw [hl] at h
      rw [Prod.mk.injEq] at h
      obtain ⟨hr, hv⟩ := h
      injection hv with hv
      subst hr
      constructor
      · intro d2
        unfold FileReaderV4.get_shared_key_cached
        rw [hl, hv]
      · intro k w hw
        exact hw
  | none =>
      rw [hl] at h
      by_cases hk : r.hasKey = false
      · rw [if_pos hk] at h
        rw [Prod.mk.injEq] at h
        exact absurd h.2 (by simp)
      · rw [if_neg hk] at h
        cases hd : derive ck with
        | none =>
            rw [hd] at h
            rw [Prod.mk.injEq] at h
            exact absurd h.2 (by simp)
        | some kb =>
            rw [hd] at h
            rw [Prod.mk.injEq] at h
            obtain ⟨hr, hv⟩ := h
            injection hv with hv
            subst hv
            constructor
            · intro d2
              unfold FileReaderV4.get_shared_key_cached
              have hcons : lookupCache r1.shared_key_cache ck = Option.some kb := by
                rw [← hr]
                simp only
                unfold lookupCache
                rw [if_pos rfl]
              rw [hcons]
            · intro k w hw
              rw [← hr]
              simp only
              unfold lookupCache
              have hne : ¬ ck = k := by
                intro he
                rw [he] at hl
                rw [hl] at hw
                cases hw
              rw [if_neg hne]
              exact hw

/-- Witness for C9 at a concrete input: a fresh keyed V4 reader derives `[9,8]`
for key `[5]` once; the second call is served from the cache even when the
derivation function can no longer produce anything. -/
theorem c9_ecdh_cache_idempotent_witness :
    FileReaderV4.get_shared_key_cached (fun _ => Option.none)
        ((FileReaderV4.get_shared_key_cached (fun _ => Option.some [9, 8])
          (FileReaderV4.mk0 ⟨[], []⟩ 0 true) [5]).1) [5]
      = ((FileReaderV4.get_shared_key_cached (fun _ => Option.some [9, 8])
          (FileReaderV4.mk0 ⟨[], []⟩ 0 true) [5]).1, .ok [9, 8]) := by
  have h := c9_ecdh_cache_idempotent (fun _ => Option.some [9, 8])
    (FileReaderV4.mk0 ⟨[], []⟩ 0 true)
    ((FileReaderV4.get_shared_key_cached (fun _ => Option.some [9, 8])
      (FileReaderV4.mk0 ⟨[], []⟩ 0 true) [5]).1) [5] [9, 8] rfl
  exact h.1 _


/-- C5 (amended): `read_safely` either fills `out[0..n]` with the next `n`
bytes of the stream and returns `n`, or fails with
`UnexpectedEof{expected:n, available:got}` when a raw read yields zero bytes
after `got < n` bytes; in the failure case the `got` bytes read so far are
already written into `out[0..got]` (partial writes are visible to the caller),
while `out` beyond the written range is unchanged. -/
theorem c5_read_safely_amended (s : ByteStream) (n : Nat) (out : List Nat) :
    ∃ got sch, got ≤ n ∧ got ≤ s.data.length ∧
      read_safely s n out =
        (⟨s.data.drop got, sch⟩, s.data.take got ++ out.drop got,
         if got = n then .ok got else .error (.unexpectedEof n got)) :=
  read_safely_spec s n out

/-- C5 counterexample: a stream holding a single byte `42` against a request
for 2 bytes fails with `UnexpectedEof{expected:2, available:1}`, but the
output buffer is `[42, 0]`, not the original `[0, 0]`: the partial write
leaks into `out`, contradicting "out is unchanged on failure". -/
theorem c5_counterexample :
    read_safely ⟨[42], []⟩ 2 [0, 0]
        = (⟨[], []⟩, [42, 0], .error (.unexpectedEof 2 1)) ∧
      [42, 0] ≠ [0, 0] :=
  ⟨rfl, by decide⟩

/-- C8 (amended): `space_left` equals `max 0 (size - position)` (it returns 0
rather than underflowing), and `position` is monotonically non-decreasing
across `read` calls, for both the V3 and the V4 reader.  (The claim's further
assertion that `position` always equals the bytes consumed from the stream is
refuted by the C8 counterexample.) -/
theorem c8_cursor_amended (inflate : InflateFn) (derive : DeriveFn) (cfb : CfbFn)
    (r3 : FileReaderV3) (r4 : FileReaderV4) (outBuf3 outBuf4 : List Nat) :
    ((r3.space_left : Int) = max 0 ((r3.size : Int) - (r3.position : Int))) ∧
    ((r4.space_left : Int) = max 0 ((r4.size : Int) - (r4.position : Int))) ∧
    r3.position ≤ (FileReaderV3.read inflate r3 outBuf3).1.position ∧
    r4.position ≤ (FileReaderV4.read inflate derive cfb r4 outBuf4).1.position := by
  refine ⟨?_, ?_, ?_, v4_read_step inflate derive cfb r4 outBuf4⟩
  · unfold FileReaderV3.space_left
    split <;> omega
  · unfold FileReaderV4.space_left
    split <;> omega
  · obtain ⟨e, _, _, hp⟩ := v3_read_step inflate r3 outBuf3
    exact hp

/-- C8 counterexample: a V4 reader at position 15 whose next byte is the mode
byte `0x33` (both nibbles invalid) returns `NeedRecover(-2)` after consuming
one byte from the stream, yet `position()` does not move: the cursor does not
equal the number of bytes consumed. -/
theorem c8_counterexample :
    FileReaderV4.read (fun _ _ => Option.none) (fun _ => Option.none)
        (fun _ _ ct => ct)
        ⟨⟨[0x33, 0, 0, 0, 0, 0, 0, 0, 0, 0, 0], []⟩, false, 15, 30, ⟨[]⟩, []⟩ []
      = (⟨⟨[0, 0, 0, 0, 0, 0, 0, 0, 0, 0], []⟩, false, 15, 30, ⟨[]⟩, []⟩, [],
          .ok (.NeedRecover (-2))) ∧
    (15 - 15 : Nat) ≠ 11 - 10 :=
  ⟨rfl, by decide⟩

lemma take_one_headD (l : List Nat) (h : 1 ≤ l.length) :
    (l.take 1).headD 0 = l.headD 0 := by
  cases l with
  | nil => simp at h
  | cons a t => simp

lemma padTrunc_length (n : Nat) (l : List Nat) : (padTrunc n l).length = n := by
  simp [padTrunc]

lemma decrypt_ok {derive : DeriveFn} {cfb : CfbFn} {r r7 : FileReaderV4}
    {ck iv ct plain : List Nat}
    (h : r.decrypt derive cfb ck iv ct = (r7, .ok plain)) :
    plain.length = ct.length := by
  unfold FileReaderV4.decrypt at h
  split at h
  · simp at h
  next r0 aesKey heq =>
    split at h
    · simp at h
    split at h
    · simp at h
    rw [Prod.mk.injEq] at h
    injection h.2 with h2
    rw [← h2, padTrunc_length]


lemma v4_read_success {inflate : InflateFn} {derive : DeriveFn} {cfb : CfbFn}
    {r r1 : FileReaderV4} {outBuf out1 : List Nat} {n : Nat}
    (h : FileReaderV4.read inflate derive cfb r outBuf = (r1, out1, .ok (.Success n))) :
    1 ≤ r.input.data.length ∧
    (∃ m, 8 ≤ (r.input.data.drop m).length ∧
      (r.input.data.drop m).take 8 = SYNC_MARKER ∧
      r1.input.data = (r.input.data.drop m).drop 8) ∧
    n ≤ outBuf.length ∧ out1.length = outBuf.length ∧ out1.drop n = outBuf.drop n ∧
    (r.input.data.headD 0 >>> 4 = 1 → n ≤ SINGLE_LOG_CONTENT_MAX_LENGTH) ∧
    (r.input.data.headD 0 >>> 4 = 1 → r1.inflater.fed = r.inflater.fed) ∧
    (r.input.data.headD 0 >>> 4 = 2 →
      ∃ b, r1.inflater.fed = r.inflater.fed ++ [b]) ∧
    (r.input.data.headD 0 >>> 4 = 2 → r.input.data.headD 0 &&& 0x0F = 1 →
      r1.inflater.fed = r.inflater.fed
        ++ [(r.input.data.drop 3).take (leU16 ((r.input.data.drop 1).take 2))]) := by
  unfold FileReaderV4.read at h
  by_cases h0 : r.space_left < 1 + 2 + 8
  · rw [if_pos h0] at h; simp at h
  rw [if_neg h0] at h
  cases hB1 : readBytes r.input 1 with
  | mk s1 res1 =>
    cases res1 with
    | error e => rw [hB1] at h; simp at h
    | ok msb =>
      rw [hB1] at h
      simp only at h
      obtain ⟨hmsb, hmsblen, hs1, hlen1⟩ := readBytes_ok hB1
      have hms : msb.headD 0 = r.input.data.headD 0 := by
        rw [hmsb]; exact take_one_headD _ hlen1
      cases hPC : v4ParseCompress (msb.headD 0 >>> 4) with
      | none => rw [hPC] at h; simp at h
      | some cm =>
        rw [hPC] at h
        cases hPE : v4ParseEncrypt (msb.headD 0 &&& 15) with
        | none => rw [hPE] at h; simp at h
        | some em =>
          rw [hPE] at h
          simp only at h
          cases em with
          | none =>
            rw [if_neg (by simp)] at h
            rw [if_neg (by simp)] at h
            cases hU : read_u16_le s1 with
            | mk s2 res2 =>
              cases res2 with
              | error e => rw [hU] at h; simp at h
              | ok logLength =>
                rw [hU] at h
                simp only at h
                obtain ⟨hll, hs2, hlen2⟩ := read_u16_le_ok hU
                by_cases hval : logLength = 0 ∨ logLength > SINGLE_LOG_CONTENT_MAX_LENGTH
                · rw [if_pos hval] at h; simp at h
                rw [if_neg hval] at h
                cases hB2 : readBytes s2 logLength with
                | mk s3 res3 =>
                  cases res3 with
                  | error e => rw [hB2] at h; simp at h
                  | ok buf =>
                    rw [hB2] at h
                    simp only at h
                    obtain ⟨hbuf, hbuflen, hs3, hlen3⟩ := readBytes_ok hB2
                    cases hAC : applyCompress inflate cm r.inflater buf outBuf with
                    | mk st1 p =>
                      cases p with
                      | mk o resx =>
                        cases resx with
                        | error e => rw [hAC] at h; simp at h
                        | ok fl =>
                          rw [hAC] at h
                          simp only [FileReaderV4.finish] at h
                          cases hB3 : readBytes s3 8 with
                          | mk s4 res4 =>
                            cases res4 with
                            | error e => rw [hB3] at h; simp at h
                            | ok sync =>
                              rw [hB3] at h
                              simp only at h
                              obtain ⟨hsync, hsynclen, hs4, hlen4⟩ := readBytes_ok hB3
                              by_cases hsm : sync ≠ SYNC_MARKER
                              · rw [if_pos hsm] at h; simp at h
                              rw [if_neg hsm] at h
                              push_neg at hsm
                              rw [Prod.mk.injEq, Prod.mk.injEq] at h
                              obtain ⟨hr1, hout1, hres⟩ := h
                              injection hres with hres1
                              injection hres1 with hn
                              obtain ⟨hnle, ho1, ho2, ho3⟩ := applyCompress_ok hAC
                              have hds3 : s3.data = r.input.data.drop (1 + 2 + logLength) := by
                                rw [hs3, hs2, hs1]
                                simp only [List.drop_drop]
                              have hfed := applyCompress_fed inflate cm r.inflater buf outBuf
                              rw [hAC] at hfed
                              simp only at hfed
                              refine ⟨hlen1, ⟨1 + 2 + logLength, ?_, ?_, ?_⟩,
                                ?_, ?_, ?_, ?_, ?_, ?_, ?_⟩
                              · rw [← hds3]; exact hlen4
                              · rw [← hds3, ← hsync, hsm]
                              · rw [← hr1]
                                simp only
                                rw [hs4, hds3]
                              · omega
                              · rw [← hout1]; omega
                              · rw [← hout1, ← hn]; exact ho2
                              · intro h1
                                rw [← hms] at h1
                                rw [h1] at hPC
                                unfold v4ParseCompress at hPC
                                simp at hPC
                                have h5 := ho3 hPC.symm
                                omega
                              · intro h1
                                rw [← hms] at h1
                                rw [h1] at hPC
                                unfold v4ParseCompress at hPC
                                simp at hPC
                                rw [← hr1]
                                simp only
                                rw [hfed, if_neg (by rw [← hPC]; simp)]
                              · intro h2
                                rw [← hms] at h2
                                rw [h2] at hPC
                                unfold v4ParseCompress at hPC
                                simp at hPC
                                refine ⟨buf, ?_⟩
                                rw [← hr1]
                                simp only
                                rw [hfed, if_pos hPC.symm]
                              · intro h2 h3
                                rw [← hms] at h2
                                rw [h2] at hPC
                                unfold v4ParseCompress at hPC
                                simp at hPC
                                rw [← hr1]
                                simp only
                                rw [hfed, if_pos hPC.symm, hbuf, hll, hs2, hs1]
                                simp [List.drop_drop]
          | aes =>
            by_cases hK : r.hasKey = false
            · rw [if_pos ⟨rfl, hK⟩] at h; simp at h
            rw [if_neg (by simpa using hK)] at h
            rw [if_pos rfl] at h
            cases hIV : readBytes s1 16 with
            | mk sA resA =>
              cases resA with
              | error e => rw [hIV] at h; simp at h
              | ok iv =>
                rw [hIV] at h
                simp only at h
                obtain ⟨hivv, hivlen, hsA, hlenA⟩ := readBytes_ok hIV
                cases hCK : readBytes sA 33 with
                | mk sB resB =>
                  cases resB with
                  | error e => rw [hCK] at h; simp at h
                  | ok ck =>
                    rw [hCK] at h
                    simp only at h
                    obtain ⟨hckv, hcklen, hsB, hlenB⟩ := readBytes_ok hCK
                    cases hU : read_u16_le sB with
                    | mk sC resC =>
                      cases resC with
                      | error e => rw [hU] at h; simp at h
                      | ok logLength =>
                        rw [hU] at h
                        simp only at h
                        obtain ⟨hll, hsC, hlenC⟩ := read_u16_le_ok hU
                        by_cases hval : logLength = 0 ∨ logLength > SINGLE_LOG_CONTENT_MAX_LENGTH
                        · rw [if_pos hval] at h; simp at h
                        rw [if_neg hval] at h
                        cases hB2 : readBytes sC logLength with
                        | mk sD resD =>
                          cases resD with
                          | error e => rw [hB2] at h; simp at h
                          | ok buf =>
                            rw [hB2] at h
                            simp only at h
                            obtain ⟨hbuf, hbuflen, hsD, hlenD⟩ := readBytes_ok hB2
                            cases hDec : FileReaderV4.decrypt derive cfb { r with input := sD, position := r.position + 1 + 16 + 33 + 2 + logLength } ck iv buf with
                            | mk r7 resE =>
                              cases resE with
                              | error e => rw [hDec] at h; simp at h
                              | ok plain =>
                                rw [hDec] at h
                                simp only at h
                                have hplen : plain.length = buf.length := decrypt_ok hDec
                                have hfields := decrypt_fields derive cfb { r with input := sD, position := r.position + 1 + 16 + 33 + 2 + logLength } ck iv buf
                                rw [hDec] at hfields
                                obtain ⟨hfp, hfi, hfinf, hfs⟩ := hfields
                                simp only at hfp hfi hfinf hfs
                                cases hAC : applyCompress inflate cm r7.inflater plain outBuf with
                                | mk st1 p =>
                                  cases p with
                                  | mk o resx =>
                                    cases resx with
                                    | error e => rw [hAC] at h; simp at h
                                    | ok fl =>
                                      rw [hAC] at h
                                      simp only [FileReaderV4.finish] at h
                                      cases hB3 : readBytes r7.input 8 with
                                      | mk s4 res4 =>
                                        cases res4 with
                                        | error e => rw [hB3] at h; simp at h
                                        | ok sync =>
                                          rw [hB3] at h
                                          simp only at h
                                          obtain ⟨hsync, hsynclen, hs4, hlen4⟩ := readBytes_ok hB3
                                          by_cases hsm : sync ≠ SYNC_MARKER
                                          · rw [if_pos hsm] at h; simp at h
                                          rw [if_neg hsm] at h
                                          push_neg at hsm
                                          rw [Prod.mk.injEq, Prod.mk.injEq] at h
                                          obtain ⟨hr1, hout1, hres⟩ := h
                                          injection hres with hres1
                                          injection hres1 with hn
                                          obtain ⟨hnle, ho1, ho2, ho3⟩ := applyCompress_ok hAC
                                          have hdsD : sD.data
                                              = r.input.data.drop (1 + 16 + 33 + 2 + logLength) := by
                                            rw [hsD, hsC, hsB, hsA, hs1]
                                            simp only [List.drop_drop]
                                          have hfed := applyCompress_fed inflate cm
                                            r7.inflater plain outBuf
                                          rw [hAC] at hfed
                                          simp only at hfed
                                          refine ⟨hlen1,
                                            ⟨1 + 16 + 33 + 2 + logLength, ?_, ?_, ?_⟩,
                                            ?_, ?_, ?_, ?_, ?_, ?_, ?_⟩
                                          · rw [← hdsD, ← hfi]
                                            exact hlen4
                                          · rw [← hdsD, ← hfi, ← hsync, hsm]
                                          · rw [← hr1]
                                            simp only
                                            rw [hs4, hfi, hdsD]
                                          · omega
                                          · rw [← hout1]; omega
                                          · rw [← hout1, ← hn]; exact ho2
                                          · intro h1
                                            rw [← hms] at h1
                                            rw [h1] at hPC
                                            unfold v4ParseCompress at hPC
                                            simp at hPC
                                            have h5 := ho3 hPC.symm
                                            omega
                                          · intro h1
                                            rw [← hms] at h1
                                            rw [h1] at hPC
                                            unfold v4ParseCompress at hPC
                                            simp at hPC
                                            rw [← hr1]
                                            simp only
                                            rw [hfed, if_neg (by rw [← hPC]; simp), hfinf]
                                          · intro h2
                                            rw [← hms] at h2
                                            rw [h2] at hPC
                                            unfold v4ParseCompress at hPC
                                            simp at hPC
                                            refine ⟨plain, ?_⟩
                                            rw [← hr1]
                                            simp only
                                            rw [hfed, if_pos hPC.symm, hfinf]
                                          · intro h2 h3
                                            rw [← hms] at h3
                                            rw [h3] at hPE
                                            unfold v4ParseEncrypt at hPE
                                            simp at hPE

lemma v3_zlib_big_out (outBuf : List Nat) (h : outBuf.length = 16385) :
    (FileReaderV3.read (fun _ _ => Option.some (List.replicate 16385 0))
      ⟨⟨37 :: 0 :: 236 :: 193 :: 49 :: 1 :: 0 :: 0 :: 0 :: 194 :: 160 :: 245 :: 79 :: 109 :: 12 :: 31 :: 160 :: 0 :: 0 :: 0 :: 0 :: 0 :: 0 :: 0 :: 0 :: 0 :: 0 :: 0 :: 0 :: 0 :: 0 :: 0 :: 128 :: 187 :: 1 :: 0 :: 0 :: 255 :: 255 :: SYNC_MARKER, []⟩, CompressMode.zlib, EncryptMode.none,
        16, 63, ⟨[]⟩⟩ outBuf).2.2 = .ok (.Success 16385) := by
  have h1 : read_u16_le ⟨37 :: 0 :: 236 :: 193 :: 49 :: 1 :: 0 :: 0 :: 0 :: 194 :: 160 :: 245 :: 79 :: 109 :: 12 :: 31 :: 160 :: 0 :: 0 :: 0 :: 0 :: 0 :: 0 :: 0 :: 0 :: 0 :: 0 :: 0 :: 0 :: 0 :: 0 :: 0 :: 128 :: 187 :: 1 :: 0 :: 0 :: 255 :: 255 :: SYNC_MARKER, []⟩
      = (⟨236 :: 193 :: 49 :: 1 :: 0 :: 0 :: 0 :: 194 :: 160 :: 245 :: 79 :: 109 :: 12 :: 31 :: 160 :: 0 :: 0 :: 0 :: 0 :: 0 :: 0 :: 0 :: 0 :: 0 :: 0 :: 0 :: 0 :: 0 :: 0 :: 0 :: 128 :: 187 :: 1 :: 0 :: 0 :: 255 :: 255 :: SYNC_MARKER, []⟩, .ok 37) := by rfl
  have h2 : readBytes (⟨236 :: 193 :: 49 :: 1 :: 0 :: 0 :: 0 :: 194 :: 160 :: 245 :: 79 :: 109 :: 12 :: 31 :: 160 :: 0 :: 0 :: 0 :: 0 :: 0 :: 0 :: 0 :: 0 :: 0 :: 0 :: 0 :: 0 :: 0 :: 0 :: 0 :: 128 :: 187 :: 1 :: 0 :: 0 :: 255 :: 255 :: SYNC_MARKER, []⟩ : ByteStream) 37
      = (⟨SYNC_MARKER, []⟩, .ok [236, 193, 49, 1, 0, 0, 0, 194, 160, 245, 79, 109, 12, 31, 160, 0, 0, 0, 0, 0, 0, 0, 0, 0, 0, 0, 0, 0, 0, 0, 128, 187, 1, 0, 0, 255, 255]) := by rfl
  have h3 : readBytes (⟨SYNC_MARKER, []⟩ : ByteStream) 8
      = (⟨[], []⟩, .ok SYNC_MARKER) := by rfl
  simp only [FileReaderV3.read, FileReaderV3.finish, h1, h2, h3, applyCompress,
    StatefulInflater.decompress, FileReaderV3.space_left,
    FileReaderV3.log_store_size, SINGLE_LOG_CONTENT_MAX_LENGTH, h,
    List.take_replicate, List.length_replicate]
  norm_num

/-- C2 (amended): every `Success(n)` satisfies `0 ≤ n ≤ out.len` for both V3
and V4 readers; the additional bound `n ≤ 16384` holds whenever the entry is
not Zlib-compressed (V3: header mode None; V4: entry mode high nibble 1) — and
hence also whenever `out.len ≤ 16384` — but a Zlib entry can legitimately
inflate to more than 16384 bytes when the caller's buffer is larger (see the
counterexample). -/
theorem c2_success_bounds_amended (inflate : InflateFn) (derive : DeriveFn)
    (cfb : CfbFn) :
    (∀ (r r1 : FileReaderV3) (outBuf out1 : List Nat) (n : Nat),
      FileReaderV3.read inflate r outBuf = (r1, out1, .ok (.Success n)) →
        n ≤ outBuf.length ∧
        (r.compress_mode = CompressMode.none → n ≤ SINGLE_LOG_CONTENT_MAX_LENGTH)) ∧
    (∀ (r r1 : FileReaderV4) (outBuf out1 : List Nat) (n : Nat),
      FileReaderV4.read inflate derive cfb r outBuf = (r1, out1, .ok (.Success n)) →
        n ≤ outBuf.length ∧
        (r.input.data.headD 0 >>> 4 = 1 → n ≤ SINGLE_LOG_CONTENT_MAX_LENGTH)) := by
  constructor
  · intro r r1 outBuf out1 n h
    obtain ⟨logLength, buf, _, _, _, hbl, _, hmax, _, _, _, _, _, hle, _, _, hnone⟩ :=
      v3_read_success h
    exact ⟨hle, fun hc => le_trans (hnone hc) hmax⟩
  · intro r r1 outBuf out1 n h
    obtain ⟨_, _, hle, _, _, hnib, _, _, _⟩ := v4_read_success h
    exact ⟨hle, hnib⟩

/-- Witness for C2's amended bounds at a concrete input: the plaintext entry
`{len=5, "hello", sync}` gives `Success(5)` with `5 ≤ 10 = out.len` and
`5 ≤ 16384`. -/
theorem c2_success_bounds_amended_witness :
    5 ≤ (List.replicate 10 0 : List Nat).length ∧
      (CompressMode.none = CompressMode.none → 5 ≤ SINGLE_LOG_CONTENT_MAX_LENGTH) := by
  exact (c2_success_bounds_amended (fun _ _ => Option.none) (fun _ => Option.none)
      (fun _ _ ct => ct)).1
    ⟨⟨5 :: 0 :: 104 :: 101 :: 108 :: 108 :: 111 :: SYNC_MARKER, []⟩,
      CompressMode.none, EncryptMode.none, 19, 34, ⟨[]⟩⟩
    (FileReaderV3.read (fun _ _ => Option.none)
      ⟨⟨5 :: 0 :: 104 :: 101 :: 108 :: 108 :: 111 :: SYNC_MARKER, []⟩,
        CompressMode.none, EncryptMode.none, 19, 34, ⟨[]⟩⟩ (List.replicate 10 0)).1
    (List.replicate 10 0)
    (FileReaderV3.read (fun _ _ => Option.none)
      ⟨⟨5 :: 0 :: 104 :: 101 :: 108 :: 108 :: 111 :: SYNC_MARKER, []⟩,
        CompressMode.none, EncryptMode.none, 19, 34, ⟨[]⟩⟩ (List.replicate 10 0)).2.1
    5 rfl

/-- C2 counterexample: a V3 Zlib entry whose 37-byte compressed payload is a
genuine raw-deflate stream — `EC C1 31 01 00 00 00 C2 A0 F5 4F 6D 0C 1F A0`
`00×15 80 BB 01 00 00 FF FF`, i.e. zlib level 9 deflating 16385 zero bytes
followed by a `Z_SYNC_FLUSH` (verifiable with `zlib.decompressobj(-15)`;
it inflates to exactly 16385 zero bytes) — read into a 16385-byte output
buffer, returns `Success(16385)`, violating the claimed bound `n ≤ 16384`.
The inflater instantiation returns those 16385 zero bytes at its single call
site (history = this payload, capacity 16385), exactly as flate2 does on that
stream. -/
theorem c2_counterexample :
    (FileReaderV3.read (fun _ _ => Option.some (List.replicate 16385 0))
        ⟨⟨37 :: 0 :: 236 :: 193 :: 49 :: 1 :: 0 :: 0 :: 0 :: 194 :: 160 :: 245 :: 79 :: 109 :: 12 :: 31 :: 160 :: 0 :: 0 :: 0 :: 0 :: 0 :: 0 :: 0 :: 0 :: 0 :: 0 :: 0 :: 0 :: 0 :: 0 :: 0 :: 128 :: 187 :: 1 :: 0 :: 0 :: 255 :: 255 :: SYNC_MARKER, []⟩, CompressMode.zlib, EncryptMode.none,
          16, 63, ⟨[]⟩⟩ (List.replicate 16385 0)).2.2 = .ok (.Success 16385) ∧
      ¬ (16385 ≤ 16384) :=
  ⟨v3_zlib_big_out (List.replicate 16385 0) (by rw [List.length_replicate]), by decide⟩

/-- C10: for every `read` that returns `Success(n)` — V3 or V4, copy branch or
Zlib branch — only `out[0..n]` is modified: the output buffer keeps its length
and every byte from index `n` on keeps the value it had before the call. -/
theorem c10_out_frame (inflate : InflateFn) (derive : DeriveFn) (cfb : CfbFn) :
    (∀ (r r1 : FileReaderV3) (outBuf out1 : List Nat) (n : Nat),
      FileReaderV3.read inflate r outBuf = (r1, out1, .ok (.Success n)) →
        out1.length = outBuf.length ∧ out1.drop n = outBuf.drop n) ∧
    (∀ (r r1 : FileReaderV4) (outBuf out1 : List Nat) (n : Nat),
      FileReaderV4.read inflate derive cfb r outBuf = (r1, out1, .ok (.Success n)) →
        out1.length = outBuf.length ∧ out1.drop n = outBuf.drop n) := by
  constructor
  · intro r r1 outBuf out1 n h
    obtain ⟨_, _, _, _, _, _, _, _, _, _, _, _, _, _, hlen, hdrop, _⟩ :=
      v3_read_success h
    exact ⟨hlen, hdrop⟩
  · intro r r1 outBuf out1 n h
    obtain ⟨_, _, _, hlen, hdrop, _⟩ := v4_read_success h
    exact ⟨hlen, hdrop⟩

/-- Witness for C10 at a concrete input: reading the `"hello"` entry into a
10-byte buffer returns `Success(5)` and leaves bytes 5..9 (and the buffer
length) unchanged. -/
theorem c10_out_frame_witness :
    (FileReaderV3.read (fun _ _ => Option.none)
        ⟨⟨5 :: 0 :: 104 :: 101 :: 108 :: 108 :: 111 :: SYNC_MARKER, []⟩,
          CompressMode.none, EncryptMode.none, 19, 34, ⟨[]⟩⟩
        (List.replicate 10 0)).2.1.length
        = (List.replicate 10 0 : List Nat).length ∧
      (FileReaderV3.read (fun _ _ => Option.none)
        ⟨⟨5 :: 0 :: 104 :: 101 :: 108 :: 108 :: 111 :: SYNC_MARKER, []⟩,
          CompressMode.none, EncryptMode.none, 19, 34, ⟨[]⟩⟩
        (List.replicate 10 0)).2.1.drop 5
        = (List.replicate 10 0 : List Nat).drop 5 := by
  exact (c10_out_frame (fun _ _ => Option.none) (fun _ => Option.none)
      (fun _ _ ct => ct)).1
    ⟨⟨5 :: 0 :: 104 :: 101 :: 108 :: 108 :: 111 :: SYNC_MARKER, []⟩,
      CompressMode.none, EncryptMode.none, 19, 34, ⟨[]⟩⟩
    (FileReaderV3.read (fun _ _ => Option.none)
      ⟨⟨5 :: 0 :: 104 :: 101 :: 108 :: 108 :: 111 :: SYNC_MARKER, []⟩,
        CompressMode.none, EncryptMode.none, 19, 34, ⟨[]⟩⟩ (List.replicate 10 0)).1
    (List.replicate 10 0)
    (FileReaderV3.read (fun _ _ => Option.none)
      ⟨⟨5 :: 0 :: 104 :: 101 :: 108 :: 108 :: 111 :: SYNC_MARKER, []⟩,
        CompressMode.none, EncryptMode.none, 19, 34, ⟨[]⟩⟩ (List.replicate 10 0)).2.1
    5 rfl

/-- C3 (amended): V3 `read` validates in the opposite order from the claim:
after reading the u16 length it first checks the remaining space
(`available < len + 8` fails with `UnexpectedEof{len+8, available}`, where
`available = space_left - 2`), and only then the length range; so
`NeedRecover(-2)` is returned for `len = 0` or `len > 16384` exactly when
enough space remains. -/
theorem c3_length_check_order_amended (inflate : InflateFn) (r : FileReaderV3)
    (s1 : ByteStream) (logLength : Nat) (outBuf : List Nat)
    (h0 : ¬ r.space_left < FileReaderV3.log_store_size 1)
    (hu : read_u16_le r.input = (s1, .ok logLength))
    (hbad : logLength = 0 ∨ logLength > SINGLE_LOG_CONTENT_MAX_LENGTH) :
    (FileReaderV3.read inflate r outBuf).2.2 =
      if r.space_left - 2 < logLength + 8
      then .error (.unexpectedEof (logLength + 8) (r.space_left - 2))
      else .ok (.NeedRecover (-2)) := by
  have hsl : r.space_left = r.size - r.position ∧ r.position + 11 ≤ r.size := by
    unfold FileReaderV3.space_left at h0 ⊢
    unfold FileReaderV3.log_store_size at h0
    by_cases hc : r.size ≤ r.position
    · rw [if_pos hc] at h0
      exact absurd (by omega) h0
    · rw [if_neg hc]
      exact ⟨rfl, by rw [if_neg hc] at h0; omega⟩
  have havail : ({ r with input := s1, position := r.position + 2 } :
      FileReaderV3).space_left = r.space_left - 2 := by
    rw [hsl.1]
    unfold FileReaderV3.space_left
    simp only
    rw [if_neg (by omega)]
    omega
  unfold FileReaderV3.read
  rw [if_neg h0, hu]
  simp only
  rw [havail]
  by_cases hsp : r.space_left - 2 < logLength + 8
  · rw [if_pos hsp, if_pos hsp]
  · rw [if_neg hsp, if_neg hsp, if_pos hbad]

/-- Witness for C3's amended ordering at a concrete input: a V3 reader whose
next length field decodes to 65535 with only 9 bytes of declared space after
it fails with `UnexpectedEof{65543, 9}` (not `NeedRecover(-2)`). -/
theorem c3_length_check_order_amended_witness :
    (FileReaderV3.read (fun _ _ => Option.none)
        ⟨⟨[255, 255], []⟩, CompressMode.none, EncryptMode.none, 16, 27, ⟨[]⟩⟩ []).2.2
      = .error (.unexpectedEof 65543 9) := by
  have h := c3_length_check_order_amended (fun _ _ => Option.none)
    ⟨⟨[255, 255], []⟩, CompressMode.none, EncryptMode.none, 16, 27, ⟨[]⟩⟩
    ⟨[], []⟩ 65535 [] (by decide) rfl (by decide)
  rw [h]
  rfl

/-- C3 counterexample: for that same reader (`len = 0xFFFF`, 9 bytes of space
left), the claim demands `NeedRecover(-2)`, but the code returns the
`UnexpectedEof` failure first. -/
theorem c3_counterexample :
    (FileReaderV3.read (fun _ _ => Option.none)
        ⟨⟨[255, 255], []⟩, CompressMode.none, EncryptMode.none, 16, 27, ⟨[]⟩⟩ []).2.2
      = .error (.unexpectedEof 65543 9) ∧
    (FileReaderV3.read (fun _ _ => Option.none)
        ⟨⟨[255, 255], []⟩, CompressMode.none, EncryptMode.none, 16, 27, ⟨[]⟩⟩ []).2.2
      ≠ .ok (.NeedRecover (-2)) := by
  constructor
  · rfl
  · rw [show (FileReaderV3.read (fun _ _ => Option.none)
        ⟨⟨[255, 255], []⟩, CompressMode.none, EncryptMode.none, 16, 27, ⟨[]⟩⟩ []).2.2
      = .error (.unexpectedEof 65543 9) from rfl]
    simp


/-- C4 (amended): the V3 header rejects an encryption (low) nibble of 2 or
more with `IllegalEncryptMode`, but a nibble of 1 is *accepted*: the header
parses (when the rest is well-formed) and records `encrypt_mode = Aes`. -/
theorem c4_v3_encrypt_nibble_amended (r r1 : FileReaderV3) (s1 : ByteStream)
    (ms : Nat) (res : Except GlogError Unit)
    (hb : readBytes r.input 1 = (s1, .ok [ms]))
    (hcm : ms >>> 4 < 2)
    (hh : FileReaderV3.read_remain_header r = (r1, res)) :
    (2 ≤ ms &&& 0x0F → res = .error (.illegalEncryptMode (ms &&& 0x0F))) ∧
    (ms &&& 0x0F = 1 → ∀ u, res = .ok u → r1.encrypt_mode = EncryptMode.aes) := by
  unfold FileReaderV3.read_remain_header at hh
  rw [hb] at hh
  simp only [List.headD_cons] at hh
  constructor
  · intro h2
    rw [if_neg (show ¬ ms >>> 4 ≥ 2 by omega)] at hh
    rw [if_pos (show ms &&& 0x0F ≥ 2 by omega)] at hh
    injection hh with hA hB
    exact hB.symm
  · intro h1 u hok
    rw [if_neg (show ¬ ms >>> 4 ≥ 2 by omega)] at hh
    rw [if_neg (show ¬ ms &&& 0x0F ≥ 2 by omega)] at hh
    rw [if_neg (show ¬ ms &&& 0x0F = 0 by omega)] at hh
    by_cases hms0 : ms >>> 4 = 0
    · rw [if_pos hms0] at hh
      cases hu : read_u16_le s1 with
      | mk s2 res2 =>
        cases res2 with
        | error e =>
            rw [hu] at hh
            simp only at hh
            injection hh with hA hB
            exact Except.noConfusion (hB.trans hok)
        | ok protoNameLen =>
            rw [hu] at hh
            simp only at hh
            split at hh
            · injection hh with hA hB
              exact Except.noConfusion (hB.trans hok)
            · split at hh
              next s3 e heq2 =>
                injection hh with hA hB
                exact Except.noConfusion (hB.trans hok)
              next s3 nm heq2 =>
                split at hh
                next s4 e heq3 =>
                  injection hh with hA hB
                  exact Except.noConfusion (hB.trans hok)
                next s4 sync heq3 =>
                  split at hh
                  · injection hh with hA hB
                    exact Except.noConfusion (hB.trans hok)
                  · injection hh with hA hB
                    rw [← hA]
    · rw [if_neg hms0] at hh
      cases hu : read_u16_le s1 with
      | mk s2 res2 =>
        cases res2 with
        | error e =>
            rw [hu] at hh
            simp only at hh
            injection hh with hA hB
            exact Except.noConfusion (hB.trans hok)
        | ok protoNameLen =>
            rw [hu] at hh
            simp only at hh
            split at hh
            · injection hh with hA hB
              exact Except.noConfusion (hB.trans hok)
            · split at hh
              next s3 e heq2 =>
                injection hh with hA hB
                exact Except.noConfusion (hB.trans hok)
              next s3 nm heq2 =>
                split at hh
                next s4 e heq3 =>
                  injection hh with hA hB
                  exact Except.noConfusion (hB.trans hok)
                next s4 sync heq3 =>
                  split at hh
                  · injection hh with hA hB
                    exact Except.noConfusion (hB.trans hok)
                  · injection hh with hA hB
                    rw [← hA]

/-- Witness for C4's amended statement at a concrete input: mode byte `0x02`
(encryption nibble 2) makes `read_remain_header` fail with
`IllegalEncryptMode(2)`. -/
theorem c4_v3_encrypt_nibble_amended_witness :
    (FileReaderV3.read_remain_header
        ⟨⟨[0x02], []⟩, CompressMode.none, EncryptMode.none, 5, 16, ⟨[]⟩⟩).2
      = .error (.illegalEncryptMode 2) := by
  have h := (c4_v3_encrypt_nibble_amended
    ⟨⟨[0x02], []⟩, CompressMode.none, EncryptMode.none, 5, 16, ⟨[]⟩⟩
    (FileReaderV3.read_remain_header
      ⟨⟨[0x02], []⟩, CompressMode.none, EncryptMode.none, 5, 16, ⟨[]⟩⟩).1
    ⟨[], []⟩ 0x02
    (FileReaderV3.read_remain_header
      ⟨⟨[0x02], []⟩, CompressMode.none, EncryptMode.none, 5, 16, ⟨[]⟩⟩).2
    rfl (by decide) rfl).1 (by decide)
  exact h

/-- C4 counterexample: a V3 header whose mode byte is `0x01` (non-zero
encryption nibble 1) is *accepted* — `read_remain_header` succeeds and sets
`encrypt_mode = Aes` — contradicting the claim that every non-zero encryption
nibble is a format error. -/
theorem c4_counterexample :
    (FileReaderV3.read_remain_header
        ⟨⟨0x01 :: 0 :: 0 :: SYNC_MARKER, []⟩, CompressMode.none, EncryptMode.none,
          5, 16, ⟨[]⟩⟩).2 = .ok () ∧
    (FileReaderV3.read_remain_header
        ⟨⟨0x01 :: 0 :: 0 :: SYNC_MARKER, []⟩, CompressMode.none, EncryptMode.none,
          5, 16, ⟨[]⟩⟩).1.encrypt_mode = EncryptMode.aes :=
  ⟨rfl, rfl⟩

lemma v3_read_recover3 {inflate : InflateFn} {r r1 : FileReaderV3}
    {outBuf out1 : List Nat}
    (h : FileReaderV3.read inflate r outBuf = (r1, out1, .ok (.NeedRecover (-3)))) :
    ∃ m sync, sync.length = 8 ∧ sync ≠ SYNC_MARKER ∧
      sync = (r.input.data.drop m).take 8 ∧
      r1.input.data = (r.input.data.drop m).drop 8 := by
  unfold FileReaderV3.read at h
  by_cases h0 : r.space_left < FileReaderV3.log_store_size 1
  · rw [if_pos h0] at h
    simp at h
  rw [if_neg h0] at h
  cases hu : read_u16_le r.input with
  | mk s1 res1 =>
    cases res1 with
    | error e => rw [hu] at h; simp at h
    | ok logLength =>
      rw [hu] at h
      simp only at h
      obtain ⟨hv, hs1, hlen2⟩ := read_u16_le_ok hu
      by_cases h1 : ({ r with input := s1, position := r.position + 2 } :
          FileReaderV3).space_left < logLength + 8
      · rw [if_pos h1] at h; simp at h
      rw [if_neg h1] at h
      by_cases h2 : logLength = 0 ∨ logLength > SINGLE_LOG_CONTENT_MAX_LENGTH
      · rw [if_pos h2] at h; simp at h
      rw [if_neg h2] at h
      cases hb : readBytes s1 logLength with
      | mk s2 res2 =>
        cases res2 with
        | error e => rw [hb] at h; simp at h
        | ok buf =>
          rw [hb] at h
          simp only at h
          obtain ⟨hbuf, hbuflen, hs2, hlenb⟩ := readBytes_ok hb
          cases hac : applyCompress inflate r.compress_mode r.inflater buf outBuf with
          | mk st1 p =>
            cases p with
            | mk outx resx =>
              cases resx with
              | error e => rw [hac] at h; simp at h
              | ok finalLength =>
                rw [hac] at h
                simp only [FileReaderV3.finish] at h
                cases hb2 : readBytes s2 8 with
                | mk s3 res3 =>
                  cases res3 with
                  | error e => rw [hb2] at h; simp at h
                  | ok sync =>
                    rw [hb2] at h
                    simp only at h
                    obtain ⟨hsync, hsynclen, hs3, hlen8⟩ := readBytes_ok hb2
                    by_cases h3 : sync ≠ SYNC_MARKER
                    · rw [if_pos h3] at h
                      rw [Prod.mk.injEq, Prod.mk.injEq] at h
                      obtain ⟨hr1, _, _⟩ := h
                      have hds2 : s2.data = r.input.data.drop (2 + logLength) := by
                        rw [hs2, hs1]
                        simp only [List.drop_drop]
                      refine ⟨2 + logLength, sync, hsynclen, h3, ?_, ?_⟩
                      · rw [hsync, hds2]
                      · rw [← hr1]
                        simp only
                        rw [hs3, hds2]
                    · rw [if_neg h3] at h
                      simp at h


lemma v4_read_recover7 {inflate : InflateFn} {derive : DeriveFn} {cfb : CfbFn}
    {r r1 : FileReaderV4} {outBuf out1 : List Nat}
    (h : FileReaderV4.read inflate derive cfb r outBuf
      = (r1, out1, .ok (.NeedRecover (-7)))) :
    ∃ m sync, sync.length = 8 ∧ sync ≠ SYNC_MARKER ∧
      sync = (r.input.data.drop m).take 8 ∧
      r1.input.data = (r.input.data.drop m).drop 8 := by
  unfold FileReaderV4.read at h
  by_cases h0 : r.space_left < 1 + 2 + 8
  · rw [if_pos h0] at h; simp at h
  rw [if_neg h0] at h
  cases hB1 : readBytes r.input 1 with
  | mk s1 res1 =>
    cases res1 with
    | error e => rw [hB1] at h; simp at h
    | ok msb =>
      rw [hB1] at h
      simp only at h
      obtain ⟨hmsb, hmsblen, hs1, hlen1⟩ := readBytes_ok hB1
      cases hPC : v4ParseCompress (msb.headD 0 >>> 4) with
      | none => rw [hPC] at h; simp at h
      | some cm =>
        rw [hPC] at h
        cases hPE : v4ParseEncrypt (msb.headD 0 &&& 15) with
        | none => rw [hPE] at h; simp at h
        | some em =>
          rw [hPE] at h
          simp only at h
          cases em with
          | none =>
            rw [if_neg (by simp)] at h
            rw [if_neg (by simp)] at h
            cases hU : read_u16_le s1 with
            | mk s2 res2 =>
              cases res2 with
              | error e => rw [hU] at h; simp at h
              | ok logLength =>
                rw [hU] at h
                simp only at h
                obtain ⟨hll, hs2, hlen2⟩ := read_u16_le_ok hU
                by_cases hval : logLength = 0 ∨ logLength > SINGLE_LOG_CONTENT_MAX_LENGTH
                · rw [if_pos hval] at h; simp at h
                rw [if_neg hval] at h
                cases hB2 : readBytes s2 logLength with
                | mk s3 res3 =>
                  cases res3 with
                  | error e => rw [hB2] at h; simp at h
                  | ok buf =>
                    rw [hB2] at h
                    simp only at h
                    obtain ⟨hbuf, hbuflen, hs3, hlen3⟩ := readBytes_ok hB2
                    cases hAC : applyCompress inflate cm r.inflater buf outBuf with
                    | mk st1 p =>
                      cases p with
                      | mk o resx =>
                        cases resx with
                        | error e => rw [hAC] at h; simp at h
                        | ok fl =>
                          rw [hAC] at h
                          simp only [FileReaderV4.finish] at h
                          cases hB3 : readBytes s3 8 with
                          | mk s4 res4 =>
                            cases res4 with
                            | error e => rw [hB3] at h; simp at h
                            | ok sync =>
                              rw [hB3] at h
                              simp only at h
                              obtain ⟨hsync, hsynclen, hs4, hlen4⟩ := readBytes_ok hB3
                              by_cases hsm : sync ≠ SYNC_MARKER
                              · rw [if_pos hsm] at h
                                rw [Prod.mk.injEq, Prod.mk.injEq] at h
                                obtain ⟨hr1, _, _⟩ := h
                                have hds3 : s3.data
                                    = r.input.data.drop (1 + 2 + logLength) := by
                                  rw [hs3, hs2, hs1]
                                  simp only [List.drop_drop]
                                refine ⟨1 + 2 + logLength, sync, hsynclen, hsm, ?_, ?_⟩
                                · rw [hsync, hds3]
                                · rw [← hr1]
                                  simp only
                                  rw [hs4, hds3]
                              · rw [if_neg hsm] at h
                                simp at h
          | aes =>
            by_cases hK : r.hasKey = false
            · rw [if_pos ⟨rfl, hK⟩] at h; simp at h
            rw [if_neg (by simpa using hK)] at h
            rw [if_pos rfl] at h
            cases hIV : readBytes s1 16 with
            | mk sA resA =>
              cases resA with
              | error e => rw [hIV] at h; simp at h
              | ok iv =>
                rw [hIV] at h
                simp only at h
                obtain ⟨hivv, hivlen, hsA, hlenA⟩ := readBytes_ok hIV
                cases hCK : readBytes sA 33 with
                | mk sB resB =>
                  cases resB with
                  | error e => rw [hCK] at h; simp at h
                  | ok ck =>
                    rw [hCK] at h
                    simp only at h
                    obtain ⟨hckv, hcklen, hsB, hlenB⟩ := readBytes_ok hCK
                    cases hU : read_u16_le sB with
                    | mk sC resC =>
                      cases resC with
                      | error e => rw [hU] at h; simp at h
                      | ok logLength =>
                        rw [hU] at h
                        simp only at h
                        obtain ⟨hll, hsC, hlenC⟩ := read_u16_le_ok hU
                        by_cases hval : logLength = 0 ∨ logLength > SINGLE_LOG_CONTENT_MAX_LENGTH
                        · rw [if_pos hval] at h; simp at h
                        rw [if_neg hval] at h
                        cases hB2 : readBytes sC logLength with
                        | mk sD resD =>
                          cases resD with
                          | error e => rw [hB2] at h; simp at h
                          | ok buf =>
                            rw [hB2] at h
                            simp only at h
                            obtain ⟨hbuf, hbuflen, hsD, hlenD⟩ := readBytes_ok hB2
                            cases hDec : FileReaderV4.decrypt derive cfb { r with input := sD, position := r.position + 1 + 16 + 33 + 2 + logLength } ck iv buf with
                            | mk r7 resE =>
                              cases resE with
                              | error e => rw [hDec] at h; simp at h
                              | ok plain =>
                                rw [hDec] at h
                                simp only at h
                                have hfields := decrypt_fields derive cfb { r with input := sD, position := r.position + 1 + 16 + 33 + 2 + logLength } ck iv buf
                                rw [hDec] at hfields
                                obtain ⟨hfp, hfi, hfinf, hfs⟩ := hfields
                                simp only at hfp hfi hfinf hfs
                                cases hAC : applyCompress inflate cm r7.inflater plain outBuf with
                                | mk st1 p =>
                                  cases p with
                                  | mk o resx =>
                                    cases resx with
                                    | error e => rw [hAC] at h; simp at h
                                    | ok fl =>
                                      rw [hAC] at h
                                      simp only [FileReaderV4.finish] at h
                                      cases hB3 : readBytes r7.input 8 with
                                      | mk s4 res4 =>
                                        cases res4 with
                                        | error e => rw [hB3] at h; simp at h
                                        | ok sync =>
                                          rw [hB3] at h
                                          simp only at h
                                          obtain ⟨hsync, hsynclen, hs4, hlen4⟩ := readBytes_ok hB3
                                          by_cases hsm : sync ≠ SYNC_MARKER
                                          · rw [if_pos hsm] at h
                                            rw [Prod.mk.injEq, Prod.mk.injEq] at h
                                            obtain ⟨hr1, _, _⟩ := h
                                            have hdsD : sD.data
                                                = r.input.data.drop (1 + 16 + 33 + 2 + logLength) := by
                                              rw [hsD, hsC, hsB, hsA, hs1]
                                              simp only [List.drop_drop]
                                            refine ⟨1 + 16 + 33 + 2 + logLength, sync,
                                              hsynclen, hsm, ?_, ?_⟩
                                            · rw [hsync, hfi, hdsD]
                                            · rw [← hr1]
                                              simp only
                                              rw [hs4, hfi, hdsD]
                                          · rw [if_neg hsm] at h
                                            simp at h


/-- C7: for every entry `read` that returns `Success`, the 8 bytes consumed
immediately after the payload equal the sync marker (the consumed prefix of
the stream ends with `B7 DB E7 DB 80 AD D9 57`, and the reader continues right
after it); when those 8 bytes differ, `read` returns `NeedRecover(-3)` on a V3
reader and `NeedRecover(-7)` on a V4 reader — stated conversely: every
`NeedRecover(-3)` (V3) / `NeedRecover(-7)` (V4) outcome arises from an 8-byte
window that differs from the marker, and those codes arise nowhere else in
`read`. -/
theorem c7_sync_marker_on_success (inflate : InflateFn) (derive : DeriveFn)
    (cfb : CfbFn) :
    (∀ (r r1 : FileReaderV3) (outBuf out1 : List Nat) (n : Nat),
      FileReaderV3.read inflate r outBuf = (r1, out1, .ok (.Success n)) →
        ∃ pre, r.input.data = pre ++ SYNC_MARKER ++ r1.input.data) ∧
    (∀ (r r1 : FileReaderV3) (outBuf out1 : List Nat),
      FileReaderV3.read inflate r outBuf = (r1, out1, .ok (.NeedRecover (-3))) →
        ∃ pre sync, sync.length = 8 ∧ sync ≠ SYNC_MARKER ∧
          r.input.data = pre ++ sync ++ r1.input.data) ∧
    (∀ (r r1 : FileReaderV4) (outBuf out1 : List Nat) (n : Nat),
      FileReaderV4.read inflate derive cfb r outBuf = (r1, out1, .ok (.Success n)) →
        ∃ pre, r.input.data = pre ++ SYNC_MARKER ++ r1.input.data) ∧
    (∀ (r r1 : FileReaderV4) (outBuf out1 : List Nat),
      FileReaderV4.read inflate derive cfb r outBuf
          = (r1, out1, .ok (.NeedRecover (-7))) →
        ∃ pre sync, sync.length = 8 ∧ sync ≠ SYNC_MARKER ∧
          r.input.data = pre ++ sync ++ r1.input.data) := by
  refine ⟨?_, ?_, ?_, ?_⟩
  · intro r r1 outBuf out1 n h
    obtain ⟨logLength, buf, _, _, _, _, _, _, hmark, _, hdata, _⟩ :=
      v3_read_success h
    refine ⟨r.input.data.take (2 + logLength), ?_⟩
    rw [hdata, ← hmark, List.append_assoc, List.take_append_drop]
    exact (List.take_append_drop _ _).symm
  · intro r r1 outBuf out1 h
    obtain ⟨m, sync, hlen, hne, hsync, hdata⟩ := v3_read_recover3 h
    refine ⟨r.input.data.take m, sync, hlen, hne, ?_⟩
    rw [hdata, hsync, List.append_assoc, List.take_append_drop]
    exact (List.take_append_drop _ _).symm
  · intro r r1 outBuf out1 n h
    obtain ⟨_, ⟨m, _, hmark, hdata⟩, _⟩ := v4_read_success h
    refine ⟨r.input.data.take m, ?_⟩
    rw [hdata, ← hmark, List.append_assoc, List.take_append_drop]
    exact (List.take_append_drop _ _).symm
  · intro r r1 outBuf out1 h
    obtain ⟨m, sync, hlen, hne, hsync, hdata⟩ := v4_read_recover7 h
    refine ⟨r.input.data.take m, sync, hlen, hne, ?_⟩
    rw [hdata, hsync, List.append_assoc, List.take_append_drop]
    exact (List.take_append_drop _ _).symm

/-- Witness for C7 at a concrete input: the successful read of the `"hello"`
entry decomposes the stream as `payload-prefix ++ SYNC_MARKER ++ rest`. -/
theorem c7_sync_marker_on_success_witness :
    ∃ pre, (5 :: 0 :: 104 :: 101 :: 108 :: 108 :: 111 :: SYNC_MARKER : List Nat)
      = pre ++ SYNC_MARKER
        ++ (FileReaderV3.read (fun _ _ => Option.none)
          ⟨⟨5 :: 0 :: 104 :: 101 :: 108 :: 108 :: 111 :: SYNC_MARKER, []⟩,
            CompressMode.none, EncryptMode.none, 19, 34, ⟨[]⟩⟩
          (List.replicate 10 0)).1.input.data := by
  exact (c7_sync_marker_on_success (fun _ _ => Option.none) (fun _ => Option.none)
      (fun _ _ ct => ct)).1
    ⟨⟨5 :: 0 :: 104 :: 101 :: 108 :: 108 :: 111 :: SYNC_MARKER, []⟩,
      CompressMode.none, EncryptMode.none, 19, 34, ⟨[]⟩⟩
    (FileReaderV3.read (fun _ _ => Option.none)
      ⟨⟨5 :: 0 :: 104 :: 101 :: 108 :: 108 :: 111 :: SYNC_MARKER, []⟩,
        CompressMode.none, EncryptMode.none, 19, 34, ⟨[]⟩⟩ (List.replicate 10 0)).1
    (List.replicate 10 0)
    (FileReaderV3.read (fun _ _ => Option.none)
      ⟨⟨5 :: 0 :: 104 :: 101 :: 108 :: 108 :: 111 :: SYNC_MARKER, []⟩,
        CompressMode.none, EncryptMode.none, 19, 34, ⟨[]⟩⟩ (List.replicate 10 0)).2.1
    5 rfl

/-- C6: the V4 mode byte is dispatched as claimed: high nibble 1 means no
compression and 2 means Zlib (`v4ParseCompress`), any other high nibble makes
`read` return `NeedRecover(-2)`; low nibble 1 means no encryption and 2 means
AES (`v4ParseEncrypt`), any other low nibble (with a valid high nibble) makes
`read` return `NeedRecover(-3)`; and when both nibbles are valid, `read`
never returns either of those two codes. -/
theorem c6_v4_mode_dispatch (inflate : InflateFn) (derive : DeriveFn) (cfb : CfbFn)
    (r : FileReaderV4) (outBuf : List Nat) (s1 : ByteStream) (ms : Nat)
    (h0 : ¬ r.space_left < 1 + 2 + 8)
    (hb : readBytes r.input 1 = (s1, .ok [ms])) :
    (v4ParseCompress (ms >>> 4) = Option.none →
      (FileReaderV4.read inflate derive cfb r outBuf).2.2
        = .ok (.NeedRecover (-2))) ∧
    (v4ParseCompress (ms >>> 4) ≠ Option.none →
      v4ParseEncrypt (ms &&& 0x0F) = Option.none →
      (FileReaderV4.read inflate derive cfb r outBuf).2.2
        = .ok (.NeedRecover (-3))) ∧
    (v4ParseCompress (ms >>> 4) ≠ Option.none →
      v4ParseEncrypt (ms &&& 0x0F) ≠ Option.none →
      (FileReaderV4.read inflate derive cfb r outBuf).2.2
          ≠ .ok (.NeedRecover (-2)) ∧
      (FileReaderV4.read inflate derive cfb r outBuf).2.2
          ≠ .ok (.NeedRecover (-3))) ∧
    (v4ParseCompress (ms >>> 4) = Option.none ↔
      ¬(ms >>> 4 = 1 ∨ ms >>> 4 = 2)) ∧
    (v4ParseEncrypt (ms &&& 0x0F) = Option.none ↔
      ¬(ms &&& 0x0F = 1 ∨ ms &&& 0x0F = 2)) ∧
    v4ParseCompress 1 = Option.some CompressMode.none ∧
    v4ParseCompress 2 = Option.some CompressMode.zlib ∧
    v4ParseEncrypt 1 = Option.some EncryptMode.none ∧
    v4ParseEncrypt 2 = Option.some EncryptMode.aes := by
  refine ⟨?_, ?_, ?_, ?_, ?_, rfl, rfl, rfl, rfl⟩
  · intro hn
    unfold FileReaderV4.read
    rw [if_neg h0, hb]
    simp only [List.headD_cons]
    rw [hn]
  · intro hc hn
    unfold FileReaderV4.read
    rw [if_neg h0, hb]
    simp only [List.headD_cons]
    cases hpc : v4ParseCompress (ms >>> 4) with
    | none => exact absurd hpc hc
    | some cm =>
      rw [hn]
  · intro hc he
    unfold FileReaderV4.read
    rw [if_neg h0, hb]
    simp only [List.headD_cons]
    cases hpc : v4ParseCompress (ms >>> 4) with
    | none => exact absurd hpc hc
    | some cm =>
      cases hpe : v4ParseEncrypt (ms &&& 0x0F) with
      | none => exact absurd hpe he
      | some em =>
        simp only
        cases em with
        | none =>
          rw [if_neg (by simp)]
          rw [if_neg (by simp)]
          split
          next => simp
          next s2 logLength heq =>
            split
            · simp
            split
            next => simp
            next s3 buf heq2 =>
              split
              next => simp
              next st1 o fl heq3 =>
                unfold FileReaderV4.finish
                split
                next => simp
                next s4 sync heq4 =>
                  split
                  · simp
                  · simp
        | aes =>
          by_cases hK : r.hasKey = false
          · rw [if_pos ⟨rfl, hK⟩]
            simp
          rw [if_neg (by simpa using hK)]
          rw [if_pos rfl]
          split
          next => simp
          next s2 iv heq =>
            split
            next => simp
            next s3 ck heq2 =>
              split
              next => simp
              next s4 logLength heq3 =>
                split
                · simp
                split
                next => simp
                next s5 buf heq4 =>
                  split
                  next => simp
                  next r7 plain heq5 =>
                    split
                    next => simp
                    next st1 o fl heq6 =>
                      unfold FileReaderV4.finish
                      split
                      next => simp
                      next s6 sync heq7 =>
                        split
                        · simp
                        · simp
  · unfold v4ParseCompress
    split
    · simp
      omega
    split
    · simp
      omega
    · simp
      omega
  · unfold v4ParseEncrypt
    split
    · simp
      omega
    split
    · simp
      omega
    · simp
      omega


/-- Witness for C6 at a concrete input: mode byte `0x33` (high nibble 3) on a
V4 reader with 15 bytes of space makes `read` return `NeedRecover(-2)`. -/
theorem c6_v4_mode_dispatch_witness :
    (FileReaderV4.read (fun _ _ => Option.none) (fun _ => Option.none)
        (fun _ _ ct => ct)
        ⟨⟨[0x33, 0, 0, 0, 0, 0, 0, 0, 0, 0, 0], []⟩, false, 15, 30, ⟨[]⟩, []⟩ []).2.2
      = .ok (.NeedRecover (-2)) := by
  exact (c6_v4_mode_dispatch (fun _ _ => Option.none) (fun _ => Option.none)
    (fun _ _ ct => ct)
    ⟨⟨[0x33, 0, 0, 0, 0, 0, 0, 0, 0, 0, 0], []⟩, false, 15, 30, ⟨[]⟩, []⟩ []
    ⟨[0, 0, 0, 0, 0, 0, 0, 0, 0, 0], []⟩ 0x33 (by decide) rfl).1 rfl

lemma v4_read_fed_step (inflate : InflateFn) (derive : DeriveFn) (cfb : CfbFn)
    (r : FileReaderV4) (outBuf : List Nat) :
    ∃ extra, (FileReaderV4.read inflate derive cfb r outBuf).1.inflater.fed
      = r.inflater.fed ++ extra := by
  unfold FileReaderV4.read
  split
  · exact ⟨[], by simp⟩
  split
  next s1 e heq => exact ⟨[], by simp⟩
  next s1 msb heq =>
    simp only
    split
    · exact ⟨[], by simp⟩
    next cm hpc =>
      split
      · exact ⟨[], by simp⟩
      next em hpe =>
        cases em with
        | none =>
          rw [if_neg (by simp)]
          rw [if_neg (by simp)]
          split
          next s2 e heq2 => exact ⟨[], by simp⟩
          next s2 logLength heq2 =>
            split
            · exact ⟨[], by simp⟩
            split
            next s3 e heq3 => exact ⟨[], by simp⟩
            next s3 buf heq3 =>
              have hfed := applyCompress_fed inflate cm r.inflater buf outBuf
              split
              next st1 o e heq4 =>
                rw [heq4] at hfed
                simp only at hfed
                refine ⟨if cm = CompressMode.zlib then [buf] else [], ?_⟩
                simp only
                rw [hfed]
                split <;> simp
              next st1 o fl heq4 =>
                rw [heq4] at hfed
                simp only at hfed
                have hf := (v4_finish_step
                  { r with
                      input := s3, position := r.position + 1 + 2 + logLength,
                      inflater := st1 } o fl).1
                rw [hf]
                refine ⟨if cm = CompressMode.zlib then [buf] else [], ?_⟩
                simp only
                rw [hfed]
                split <;> simp
        | aes =>
          by_cases hK : r.hasKey = false
          · rw [if_pos ⟨rfl, hK⟩]
            exact ⟨[], by simp⟩
          · rw [if_neg (by simpa using hK)]
            rw [if_pos rfl]
            split
            next s2 e heq2 => exact ⟨[], by simp⟩
            next s2 iv heq2 =>
              split
              next s3 e heq3 => exact ⟨[], by simp⟩
              next s3 ck heq3 =>
                split
                next s4 e heq4 => exact ⟨[], by simp⟩
                next s4 logLength heq4 =>
                  split
                  · exact ⟨[], by simp⟩
                  split
                  next s5 e heq5 => exact ⟨[], by simp⟩
                  next s5 buf heq5 =>
                    have hinf := (decrypt_fields derive cfb { r with input := s5, position := r.position + 1 + 16 + 33 + 2 + logLength } ck iv buf).2.2.1
                    split
                    next r7 e heq6 =>
                      rw [heq6] at hinf
                      simp only at hinf
                      exact ⟨[], by simp [hinf]⟩
                    next r7 plain heq6 =>
                      rw [heq6] at hinf
                      simp only at hinf
                      have hfed := applyCompress_fed inflate cm r7.inflater plain outBuf
                      split
                      next st1 o e heq7 =>
                        rw [heq7] at hfed
                        simp only at hfed
                        refine ⟨if cm = CompressMode.zlib then [plain] else [], ?_⟩
                        simp only
                        rw [hfed, hinf]
                        split <;> simp
                      next st1 o fl heq7 =>
                        rw [heq7] at hfed
                        simp only at hfed
                        have hf := (v4_finish_step { r7 with inflater := st1 } o fl).1
                        rw [hf]
                        refine ⟨if cm = CompressMode.zlib then [plain] else [], ?_⟩
                        simp only
                        rw [hfed, hinf]
                        split <;> simp

lemma v4_readN_fed (inflate : InflateFn) (derive : DeriveFn) (cfb : CfbFn) :
    ∀ (n : Nat) (r : FileReaderV4) (outBuf : List Nat),
    ∃ extra, (FileReaderV4.readN inflate derive cfb n r outBuf).inflater.fed
      = r.inflater.fed ++ extra
  | 0, r, outBuf => ⟨[], by simp [FileReaderV4.readN]⟩
  | n + 1, r, outBuf => by
      obtain ⟨e1, h1⟩ := v4_read_fed_step inflate derive cfb r outBuf
      obtain ⟨e2, h2⟩ := v4_readN_fed inflate derive cfb n
        (FileReaderV4.read inflate derive cfb r outBuf).1
        (FileReaderV4.read inflate derive cfb r outBuf).2.1
      refine ⟨e1 ++ e2, ?_⟩
      rw [FileReaderV4.readN, h2, h1, List.append_assoc]

/-- C1: for every opened file — V3 or V4 — all Zlib-compressed entry payloads
are fed, in file order, to the single stateful inflater created with the
reader: across any number of `read` calls the inflater's fed history is only
ever extended (never reset or replaced); a V3 `read` returning `Success`
appends exactly its entry's payload bytes in Zlib mode and nothing in
plaintext mode; a V4 `read` returning `Success` appends exactly one chunk when
the entry's mode byte selects Zlib — for an unencrypted entry exactly the
`len` payload bytes after the mode and length fields, for an encrypted entry
its decrypted payload — and nothing when the mode byte selects no
compression. -/
theorem c1_single_inflater_fed_in_order (inflate : InflateFn) (derive : DeriveFn)
    (cfb : CfbFn) :
    (∀ (r : FileReaderV3) (k : Nat) (outBuf : List Nat),
      ∃ extra, (FileReaderV3.readN inflate k r outBuf).inflater.fed
        = r.inflater.fed ++ extra) ∧
    (∀ (r r1 : FileReaderV3) (outBuf out1 : List Nat) (n : Nat),
      FileReaderV3.read inflate r outBuf = (r1, out1, .ok (.Success n)) →
        (r.compress_mode = CompressMode.zlib →
          r1.inflater.fed = r.inflater.fed
            ++ [(r.input.data.drop 2).take (leU16 (r.input.data.take 2))]) ∧
        (r.compress_mode = CompressMode.none →
          r1.inflater.fed = r.inflater.fed)) ∧
    (∀ (r : FileReaderV4) (k : Nat) (outBuf : List Nat),
      ∃ extra, (FileReaderV4.readN inflate derive cfb k r outBuf).inflater.fed
        = r.inflater.fed ++ extra) ∧
    (∀ (r r1 : FileReaderV4) (outBuf out1 : List Nat) (n : Nat),
      FileReaderV4.read inflate derive cfb r outBuf = (r1, out1, .ok (.Success n)) →
        (r.input.data.headD 0 >>> 4 = 1 → r1.inflater.fed = r.inflater.fed) ∧
        (r.input.data.headD 0 >>> 4 = 2 →
          ∃ b, r1.inflater.fed = r.inflater.fed ++ [b]) ∧
        (r.input.data.headD 0 >>> 4 = 2 → r.input.data.headD 0 &&& 0x0F = 1 →
          r1.inflater.fed = r.inflater.fed
            ++ [(r.input.data.drop 3).take (leU16 ((r.input.data.drop 1).take 2))])) := by
  refine ⟨?_, ?_, ?_, ?_⟩
  · intro r k outBuf
    exact v3_readN_fed inflate k r outBuf
  · intro r r1 outBuf out1 n h
    obtain ⟨logLength, buf, _, hv, hbuf, _, _, _, _, _, _, _, hfed, _⟩ :=
      v3_read_success h
    constructor
    · intro hz
      rw [hfed, if_pos hz, hbuf, hv]
    · intro hn
      rw [hfed, if_neg (by rw [hn]; simp)]
  · intro r k outBuf
    exact v4_readN_fed inflate derive cfb k r outBuf
  · intro r r1 outBuf out1 n h
    obtain ⟨_, _, _, _, _, _, hf1, hf2, hf3⟩ := v4_read_success h
    exact ⟨hf1, hf2, hf3⟩

/-- Witness for C1 at concrete inputs: a Zlib-mode V3 reader over the entry
`{len=1, payload=[99], sync}` and a V4 reader over the entry
`{mode=0x21, len=1, payload=[99], sync}` each end one successful read with
exactly `[99]` appended to the (initially empty) fed history. -/
theorem c1_single_inflater_fed_in_order_witness :
    (FileReaderV3.read (fun _ _ => Option.some [])
        ⟨⟨1 :: 0 :: 99 :: SYNC_MARKER, []⟩, CompressMode.zlib, EncryptMode.none,
          16, 27, ⟨[]⟩⟩ (List.replicate 16 0)).1.inflater.fed = [[99]] ∧
    (FileReaderV4.read (fun _ _ => Option.some []) (fun _ => Option.none)
        (fun _ _ ct => ct)
        ⟨⟨0x21 :: 1 :: 0 :: 99 :: SYNC_MARKER, []⟩, false, 15, 27, ⟨[]⟩, []⟩
        (List.replicate 16 0)).1.inflater.fed = [[99]] := by
  constructor
  · have h := ((c1_single_inflater_fed_in_order (fun _ _ => Option.some [])
        (fun _ => Option.none) (fun _ _ ct => ct)).2.1
      ⟨⟨1 :: 0 :: 99 :: SYNC_MARKER, []⟩, CompressMode.zlib, EncryptMode.none,
        16, 27, ⟨[]⟩⟩
      (FileReaderV3.read (fun _ _ => Option.some [])
          ⟨⟨1 :: 0 :: 99 :: SYNC_MARKER, []⟩, CompressMode.zlib, EncryptMode.none,
            16, 27, ⟨[]⟩⟩ (List.replicate 16 0)).1
      (List.replicate 16 0)
      (FileReaderV3.read (fun _ _ => Option.some [])
          ⟨⟨1 :: 0 :: 99 :: SYNC_MARKER, []⟩, CompressMode.zlib, EncryptMode.none,
            16, 27, ⟨[]⟩⟩ (List.replicate 16 0)).2.1
      0 rfl).1 rfl
    rw [h]
    rfl
  · have h := ((c1_single_inflater_fed_in_order (fun _ _ => Option.some [])
        (fun _ => Option.none) (fun _ _ ct => ct)).2.2.2
      ⟨⟨0x21 :: 1 :: 0 :: 99 :: SYNC_MARKER, []⟩, false, 15, 27, ⟨[]⟩, []⟩
      (FileReaderV4.read (fun _ _ => Option.some []) (fun _ => Option.none)
          (fun _ _ ct => ct)
          ⟨⟨0x21 :: 1 :: 0 :: 99 :: SYNC_MARKER, []⟩, false, 15, 27, ⟨[]⟩, []⟩
          (List.replicate 16 0)).1
      (List.replicate 16 0)
      (FileReaderV4.read (fun _ _ => Option.some []) (fun _ => Option.none)
          (fun _ _ ct => ct)
          ⟨⟨0x21 :: 1 :: 0 :: 99 :: SYNC_MARKER, []⟩, false, 15, 27, ⟨[]⟩, []⟩
          (List.replicate 16 0)).2.1
      0 rfl).2.2 rfl rfl
    rw [h]
    rfl

end Glog
